import Mathlib

/-!
contacts-book: the Book repository over a byte store

A shallow embedding of `contactbook/service.go` (the `BookImpl` repository) and of the
part of `storage/types.go` it uses.

Modelling decisions, all read off the source:

* Go `int` is a 64-bit two's complement integer: `Int` with `wrapInt` at the increment.
* `map[K]*Contact` is an association list from keys to pointers; a pointer is an index
  into `heap`, the list of `Contact` objects the book has been handed. Both indices hold
  pointers to the same objects, so the in-place assignment of `UpdateContact` is seen
  through both of them, as in Go.
* Go leaves the iteration order of a map unspecified; the association list fixes one.
  Statements about iteration are made for every list ordering of the same map.
* `bytes.TrimSpace`, `json.Marshal` and `json.Unmarshal` are not code of this repository:
  they are the fields of `GoLib`, a parameter of the functions that call them.
* `storage.Store` is an interface. `Read` is called once (by `load`), so a store is seen
  by the book as the answer of that call; `Write` is called at most once per operation,
  its answer is an input of the operation and its argument is part of the outcome.
* The mutex only serialises calls; the embedding is sequential.
-/

namespace ContactBook

/-- Go `int` arithmetic on a 64-bit platform: the result of an operation is reduced to the
signed 64-bit range. -/
def wrapInt (x : Int) : Int := (x + 2 ^ 63) % 2 ^ 64 - 2 ^ 63

/-- The struct `Contact` of `contactbook/types.go`. -/
structure Contact where
  Id : Int
  FirstName : String
  LastName : String
  TelephoneNumbers : List String
deriving DecidableEq, Repr, Inhabited

/-- Error values. The three sentinels of `service.go` appear wrapped by `fmt.Errorf` with
the values named in the message; `other` is an error coming from the store or from
`encoding/json`. -/
inductive Err where
  | ErrContactExists (first last : String)
  | ErrContactMissing (id : Int)
  | ErrContactInvalid
  | other (msg : String)
deriving DecidableEq, Repr

/-- A `*Contact`: the index of the object in the heap. -/
abbrev Ptr := Nat

/-- Lookup `m[k]` with the comma-ok form: `none` when the key is absent. -/
def mapGet {κ ν : Type} [DecidableEq κ] : List (κ × ν) → κ → Option ν
  | [], _ => none
  | (k', v) :: m, k => if k' = k then some v else mapGet m k

/-- Assignment `m[k] = v`: replaces the value of a present key, adds an absent one. -/
def mapSet {κ ν : Type} [DecidableEq κ] : List (κ × ν) → κ → ν → List (κ × ν)
  | [], k, v => [(k, v)]
  | (k', v') :: m, k, v => if k' = k then (k, v) :: m else (k', v') :: mapSet m k v

/-- The builtin `delete(m, k)`. -/
def mapDelete {κ ν : Type} [DecidableEq κ] : List (κ × ν) → κ → List (κ × ν)
  | [], _ => []
  | (k', v) :: m, k => if k' = k then mapDelete m k else (k', v) :: mapDelete m k

/-- The fields `topId`, `contactsById` and `contactsByUnique` of `BookImpl`, with the
objects the two maps point to. -/
structure BookImpl where
  topId : Int
  heap : List Contact
  contactsById : List (Int × Ptr)
  contactsByUnique : List (String × Ptr)
deriving DecidableEq, Repr

/-- Dereference of a `*Contact`. The maps only hold pointers to objects of the heap; for
an index outside the heap the zero `Contact` stands in. -/
def deref (heap : List Contact) (p : Ptr) : Contact := heap.getD p default

/-- The contact stored under `id` in `contactsById`, dereferenced. -/
def BookImpl.contactAt (book : BookImpl) (id : Int) : Option Contact :=
  (mapGet book.contactsById id).map (deref book.heap)

/-- The contact stored under `key` in `contactsByUnique`, dereferenced. -/
def BookImpl.uniqueAt (book : BookImpl) (key : String) : Option Contact :=
  (mapGet book.contactsByUnique key).map (deref book.heap)

/-- The contacts of `contactsById` in the order `range` yields them. -/
def BookImpl.contacts (book : BookImpl) : List Contact :=
  book.contactsById.map (fun e => deref book.heap e.2)

/-- The standard library functions called by `load` and `save`, over the type `β` of the
byte slices exchanged with the store: `bytes.TrimSpace`, the builtin `len` on a byte
slice, `json.Marshal` on a `[]*Contact` and `json.Unmarshal` into a `[]*Contact` (an
element is `none` where the decoded pointer is nil). -/
structure GoLib (β : Type) where
  TrimSpace : β → β
  len : β → Nat
  Marshal : List Contact → Except Err β
  Unmarshal : β → Except Err (List (Option Contact))

/-- What one call of the book leaves behind: the returned error (`none` for nil), the
book afterwards, the argument of `store.Write` when it was called, and the value assigned
to `contact.Id` (line 67) when that assignment ran. -/
structure Outcome (β : Type) where
  err : Option Err
  book : BookImpl
  written : Option β
  id : Option Int
deriving DecidableEq, Repr

/-- The book literal built by `New` before `load`: empty maps, `topId` zero. -/
def BookImpl.zero : BookImpl :=
  { topId := 0, heap := [], contactsById := [], contactsByUnique := [] }

/-- `uniqueKey`: `fmt.Sprintf("%s:%s", contact.FirstName, contact.LastName)`. -/
def uniqueKey (contact : Contact) : String :=
  contact.FirstName ++ ":" ++ contact.LastName

/-- `validate` (service.go, lines 44-50). -/
def validate (contact : Contact) : Option Err :=
  if contact.FirstName = "" ∨ contact.LastName = "" then some Err.ErrContactInvalid
  else none

/-- `BookImpl.save` (lines 153-166): marshal the contacts of `contactsById` and hand the
bytes to `store.Write`, whose answer is `w`. Returns the error and the bytes written. -/
def save {β : Type} (L : GoLib β) (book : BookImpl) (w : Option Err) :
    Option Err × Option β :=
  match L.Marshal book.contacts with
  | .error e => (some e, none)
  | .ok b => (w, some b)

/-- `BookImpl.AddContact` (lines 52-72). The caller's `*Contact` is a new object (as
built by `loadContact` in `cmd/app/main.go`); it becomes the next cell of the heap when
the book stores the pointer. -/
def AddContact {β : Type} (L : GoLib β) (book : BookImpl) (contact : Contact)
    (w : Option Err) : Outcome β :=
  match validate contact with
  | some e => { err := some e, book := book, written := none, id := none }
  | none =>
    let uniqKey := uniqueKey contact
    match mapGet book.contactsByUnique uniqKey with
    | some _ =>
      { err := some (Err.ErrContactExists contact.FirstName contact.LastName),
        book := book, written := none, id := none }
    | none =>
      let topId := wrapInt (book.topId + 1)
      let p : Ptr := book.heap.length
      let book1 : BookImpl :=
        { topId := topId
          heap := book.heap ++ [{ contact with Id := topId }]
          contactsById := mapSet book.contactsById topId p
          contactsByUnique := mapSet book.contactsByUnique uniqKey p }
      let r := save L book1 w
      { err := r.1, book := book1, written := r.2, id := some topId }

/-- `BookImpl.UpdateContact` (lines 74-92). -/
def UpdateContact {β : Type} (L : GoLib β) (book : BookImpl) (id : Int) (contact : Contact)
    (w : Option Err) : Outcome β :=
  match mapGet book.contactsById id with
  | none => { err := some (Err.ErrContactMissing id), book := book, written := none, id := none }
  | some existing =>
    match validate contact with
    | some e => { err := some e, book := book, written := none, id := none }
    | none =>
      let book1 : BookImpl :=
        { book with
          heap := book.heap.set existing
            { deref book.heap existing with
              FirstName := contact.FirstName
              LastName := contact.LastName
              TelephoneNumbers := contact.TelephoneNumbers } }
      let r := save L book1 w
      { err := r.1, book := book1, written := r.2, id := none }

/-- `BookImpl.DeleteContact` (lines 94-108). -/
def DeleteContact {β : Type} (L : GoLib β) (book : BookImpl) (id : Int)
    (w : Option Err) : Outcome β :=
  match mapGet book.contactsById id with
  | none => { err := some (Err.ErrContactMissing id), book := book, written := none, id := none }
  | some existing =>
    let uniqKey := uniqueKey (deref book.heap existing)
    let book1 : BookImpl :=
      { book with
        contactsById := mapDelete book.contactsById (deref book.heap existing).Id
        contactsByUnique := mapDelete book.contactsByUnique uniqKey }
    let r := save L book1 w
    { err := r.1, book := book1, written := r.2, id := none }

/-- `sort.Slice` with the comparison `less`, as an insertion sort: an element is placed
before the first one that is not less than it. -/
def sortSlice {α : Type} (less : α → α → Bool) (l : List α) : List α :=
  l.insertionSort (fun a b => less b a = false)

/-- The slice `ListContacts` hands to its callback (lines 115-122). -/
def BookImpl.listed (book : BookImpl) : List Contact :=
  sortSlice (fun a b => decide (a.Id < b.Id)) book.contacts

/-- What a call of `ListContacts` leaves behind: the returned error, the book afterwards
and the arguments of the calls of the callback, in order. -/
structure Listing where
  err : Option Err
  book : BookImpl
  calls : List (List Contact)
deriving DecidableEq, Repr

/-- `BookImpl.ListContacts` (lines 110-125): one call of the callback on the sorted slice,
whose answer is returned. The callback is a function of the contacts it is shown (as the
printing callback of `cmd/app/main.go`). -/
def ListContacts (book : BookImpl) (cb : List Contact → Option Err) : Listing :=
  { err := cb book.listed, book := book, calls := [book.listed] }

/-- The loop of `load` (lines 143-149) over the decoded slice; `none` is the run-time
panic of `contact.Id` on a nil element. Each decoded record is a new object. -/
def loadLoop (book : BookImpl) : List (Option Contact) → Option BookImpl
  | [] => some book
  | none :: _ => none
  | some contact :: rest =>
    loadLoop
      { topId := if book.topId < contact.Id then contact.Id else book.topId
        heap := book.heap ++ [contact]
        contactsById := mapSet book.contactsById contact.Id book.heap.length
        contactsByUnique := mapSet book.contactsByUnique (uniqueKey contact) book.heap.length }
      rest

/-- `BookImpl.load` (lines 127-151) on the answer `read` of `store.Read()`. The result is
the returned error with the book afterwards, or `none` when the loop panics. -/
def load {β : Type} (L : GoLib β) (read : Except Err β) (book : BookImpl) :
    Option (Option Err × BookImpl) :=
  match read with
  | .error e => some (some e, book)
  | .ok b =>
    if L.len (L.TrimSpace b) = 0 then some (none, book)
    else
      match L.Unmarshal b with
      | .error e => some (some e, book)
      | .ok contacts => (loadLoop book contacts).map (fun bk => (none, bk))

/-- `New` (lines 31-38): returns the book together with the error of `load`. -/
def New {β : Type} (L : GoLib β) (read : Except Err β) : Option (Option Err × BookImpl) :=
  load L read BookImpl.zero

/-- A call of one of the three mutating operations of the `Book` interface. -/
inductive Call where
  | AddContact (contact : Contact)
  | UpdateContact (id : Int) (contact : Contact)
  | DeleteContact (id : Int)
deriving DecidableEq, Repr

/-- One call on the book, `w` being the answer `store.Write` gives if it is called. -/
def exec {β : Type} (L : GoLib β) (book : BookImpl) : Call → Option Err → Outcome β
  | .AddContact contact, w => AddContact L book contact w
  | .UpdateContact id contact, w => UpdateContact L book id contact w
  | .DeleteContact id, w => DeleteContact L book id w

/-- The outcomes of a sequence of calls on one book, in order. -/
def outcomes {β : Type} (L : GoLib β) : BookImpl → List (Call × Option Err) → List (Outcome β)
  | _, [] => []
  | book, (call, w) :: rest =>
    let o := exec L book call w
    o :: outcomes L o.book rest

/-- The book after a sequence of calls. -/
def run {β : Type} (L : GoLib β) : BookImpl → List (Call × Option Err) → BookImpl
  | book, [] => book
  | book, (call, w) :: rest => run L (exec L book call w).book rest

/-- The id index is well formed: every entry points to an object of the heap whose `Id`
is the key of the entry, and no key occurs twice. -/
def BookImpl.Inv (book : BookImpl) : Prop :=
  (∀ e ∈ book.contactsById, e.2 < book.heap.length ∧ (deref book.heap e.2).Id = e.1) ∧
    (book.contactsById.map Prod.fst).Nodup

instance (book : BookImpl) : Decidable book.Inv := by
  unfold BookImpl.Inv
  infer_instance

/-- Ids assigned so far lie in `1 .. topId`, and `topId` is at most `n`: the state of the
counter after at most `n` calls on a book started empty. -/
def Within (n : Nat) (book : BookImpl) : Prop :=
  0 ≤ book.topId ∧ book.topId ≤ n ∧ ∀ e ∈ book.contactsById, 0 < e.1 ∧ e.1 ≤ book.topId

/-- The round trip of `encoding/json` on a slice of contacts: the bytes `json.Marshal`
returns are not blank, and `json.Unmarshal` decodes them to the records marshalled. -/
def GoLib.RoundTrip {β : Type} (L : GoLib β) : Prop :=
  ∀ cs b, L.Marshal cs = .ok b →
    L.len (L.TrimSpace b) ≠ 0 ∧ L.Unmarshal b = .ok (cs.map some)

/-- A lossless instance of `GoLib`, used to evaluate the operations: the content of the
data file is `none` when it holds no bytes and otherwise the decoded slice. -/
def losslessLib : GoLib (Option (List (Option Contact))) where
  TrimSpace := fun b => b
  len := fun b => match b with
    | none => 0
    | some _ => 1
  Marshal := fun contacts => .ok (some (contacts.map some))
  Unmarshal := fun b => match b with
    | none => .error (Err.other "unexpected end of JSON input")
    | some contacts => .ok contacts

/-- Sample contacts, as a caller builds them (the `Id` field is still zero). -/
def annLee : Contact := { Id := 0, FirstName := "Ann", LastName := "Lee", TelephoneNumbers := ["123"] }

def bobLee : Contact := { Id := 0, FirstName := "Bob", LastName := "Lee", TelephoneNumbers := ["456"] }

def carlRay : Contact := { Id := 0, FirstName := "Carl", LastName := "Ray", TelephoneNumbers := [] }

/-- The book New builds from a snapshot holding the records 3, 1 and 2 in this order. -/
def shuffledBook : BookImpl :=
  { topId := 3
    heap :=
      [{ Id := 3, FirstName := "Carl", LastName := "Ray", TelephoneNumbers := [] },
       { Id := 1, FirstName := "Ann", LastName := "Lee", TelephoneNumbers := ["123"] },
       { Id := 2, FirstName := "Bob", LastName := "Lee", TelephoneNumbers := ["456"] }]
    contactsById := [(3, 0), (1, 1), (2, 2)]
    contactsByUnique := [("Carl:Ray", 0), ("Ann:Lee", 1), ("Bob:Lee", 2)] }

/-- The book after AddContact of Ann Lee on an empty book, all writes succeeding. -/
def annBook : BookImpl := run losslessLib BookImpl.zero [(.AddContact annLee, none)]

/-- Three calls on an empty book: two additions, then the deletion of the second contact. -/
def addAddDelete : List (Call × Option Err) :=
  [(.AddContact annLee, none), (.AddContact bobLee, none), (.DeleteContact 2, none)]

/-- No key of `contactsById` exceeds `topId`, and `topId` lies between 0 and `n`. -/
def Top (n : Int) (book : BookImpl) : Prop :=
  0 ≤ book.topId ∧ book.topId ≤ n ∧ ∀ e ∈ book.contactsById, e.1 ≤ book.topId

/-- `json.Marshal` does not fail on a slice of contacts (a `[]*Contact` holds only
strings, integers and slices of strings). -/
def GoLib.MarshalOk {β : Type} (L : GoLib β) : Prop :=
  ∀ cs, ∃ b, L.Marshal cs = .ok b

/-- A snapshot with one record, whose id is the largest Go `int`. -/
def maxIdSnapshot : Option (List (Option Contact)) :=
  some [some { Id := 9223372036854775807, FirstName := "Ann", LastName := "Lee",
               TelephoneNumbers := ["123"] }]

/-- The records of a snapshot holding the ids 3, 1 and 2 in this order. -/
def shuffledRecords : List Contact :=
  [{ Id := 3, FirstName := "Carl", LastName := "Ray", TelephoneNumbers := [] },
   { Id := 1, FirstName := "Ann", LastName := "Lee", TelephoneNumbers := ["123"] },
   { Id := 2, FirstName := "Bob", LastName := "Lee", TelephoneNumbers := ["456"] }]

/-- The answer of `ioutil.ReadFile` on the data file: its bytes, an error that
`os.IsNotExist` recognises, or another error. -/
inductive ReadFile (β : Type) where
  | bytes (b : β)
  | notExist (e : Err)
  | failure (e : Err)

/-- `FileStore.Read` (storage/filestore.go, lines 41-50); `nilBytes` is the nil slice. -/
def FileStore.Read {β : Type} (nilBytes : β) : ReadFile β → Except Err β
  | .bytes b => .ok b
  | .notExist _ => .ok nilBytes
  | .failure e => .error e

/-- The four mutating calls of the acceptance scenario, every write succeeding. -/
def scenario : List (Call × Option Err) :=
  [(.AddContact { Id := 0, FirstName := "Ann", LastName := "Lee", TelephoneNumbers := ["123"] },
      none),
   (.AddContact { Id := 0, FirstName := "Ann", LastName := "Lee", TelephoneNumbers := ["456"] },
      none),
   (.DeleteContact 1, none),
   (.AddContact { Id := 0, FirstName := "Ann", LastName := "Lee", TelephoneNumbers := [] },
      none)]

/-- Every entry of contactsByUnique points to a contact whose uniqueKey is the key of the
entry and which contactsById holds under its own Id. -/
def BookImpl.Sync (book : BookImpl) : Prop :=
  ∀ e ∈ book.contactsByUnique,
    uniqueKey (deref book.heap e.2) = e.1 ∧
      mapGet book.contactsById (deref book.heap e.2).Id = some e.2

/-- No stored object has a colon in its first name. -/
def BookImpl.NoColon (book : BookImpl) : Prop :=
  ∀ d ∈ book.heap, ':' ∉ d.FirstName.data

/-- A sequence of AddContact calls, each with the answer the store gives to its write. -/
def addCalls (adds : List (Contact × Option Err)) : List (Call × Option Err) :=
  adds.map (fun x => (Call.AddContact x.1, x.2))

/-- The records of a snapshot holding the largest and the smallest Go `int` as ids. -/
def extremeRecords : List Contact :=
  [{ Id := 9223372036854775807, FirstName := "Ann", LastName := "Lee",
     TelephoneNumbers := ["123"] },
   { Id := -9223372036854775808, FirstName := "Bob", LastName := "Lee",
     TelephoneNumbers := ["456"] }]

/-- A contact with a name no sample book holds. -/
def doraLee : Contact :=
  { Id := 0, FirstName := "Dora", LastName := "Lee", TelephoneNumbers := ["789"] }

/-! ## Maps, the heap and the well-formedness of the id index -/

theorem wrapInt_of_small (x : Int) (h0 : -(2:Int) ^ 63 ≤ x) (h1 : x < 2 ^ 63) : wrapInt x = x := by
  unfold wrapInt
  norm_num at *
  omega

theorem mapGet_mapSet {κ ν : Type} [DecidableEq κ] (m : List (κ × ν)) (k k' : κ) (v : ν) :
    mapGet (mapSet m k v) k' = if k = k' then some v else mapGet m k' := by
  induction m with
  | nil => simp [mapSet, mapGet]
  | cons e m ih =>
    obtain ⟨a, b⟩ := e
    by_cases h : a = k
    · subst h
      by_cases h' : a = k' <;> simp [mapSet, mapGet, h']
    · by_cases h' : a = k'
      · subst h'
        have : ¬ k = a := fun e => h e.symm
        simp [mapSet, mapGet, h, this]
      · simp [mapSet, mapGet, h, h', ih]

theorem mapGet_mapDelete {κ ν : Type} [DecidableEq κ] (m : List (κ × ν)) (k k' : κ) :
    mapGet (mapDelete m k) k' = if k = k' then none else mapGet m k' := by
  induction m with
  | nil => simp [mapDelete, mapGet]
  | cons e m ih =>
    obtain ⟨a, b⟩ := e
    by_cases h : a = k
    · subst h
      simp only [mapDelete, if_true, ih]
      by_cases h' : a = k' <;> simp [mapGet, h']
    · by_cases h' : a = k'
      · subst h'
        have : ¬ k = a := fun e => h e.symm
        simp [mapDelete, mapGet, h, this]
      · simp [mapDelete, mapGet, h, h', ih]

theorem mem_mapDelete {κ ν : Type} [DecidableEq κ] (m : List (κ × ν)) (k : κ)
    (e : κ × ν) (h : e ∈ mapDelete m k) : e ∈ m ∧ e.1 ≠ k := by
  induction m with
  | nil => simp [mapDelete] at h
  | cons x m ih =>
    obtain ⟨a, b⟩ := x
    by_cases hk : a = k
    · simp only [mapDelete, hk, if_true] at h
      exact ⟨List.mem_cons_of_mem _ (ih h).1, (ih h).2⟩
    · simp only [mapDelete, hk, if_false, List.mem_cons] at h
      rcases h with h | h
      · subst h
        exact ⟨List.mem_cons_self _ _, hk⟩
      · exact ⟨List.mem_cons_of_mem _ (ih h).1, (ih h).2⟩

theorem mem_mapSet {κ ν : Type} [DecidableEq κ] (m : List (κ × ν)) (k : κ) (v : ν)
    (e : κ × ν) (h : e ∈ mapSet m k v) : e = (k, v) ∨ e ∈ m := by
  induction m with
  | nil => simpa [mapSet] using h
  | cons x m ih =>
    obtain ⟨a, b⟩ := x
    by_cases hk : a = k
    · simp [mapSet, hk] at h
      rcases h with h | h
      · exact Or.inl h
      · exact Or.inr (List.mem_cons_of_mem _ h)
    · simp [mapSet, hk] at h
      rcases h with h | h
      · exact Or.inr (by simp [h])
      · rcases ih h with h | h
        · exact Or.inl h
        · exact Or.inr (List.mem_cons_of_mem _ h)

theorem keys_mapSet {κ ν : Type} [DecidableEq κ] (m : List (κ × ν)) (k : κ) (v : ν) (a : κ)
    (h : a ∈ (mapSet m k v).map Prod.fst) : a = k ∨ a ∈ m.map Prod.fst := by
  obtain ⟨e, he, rfl⟩ := List.mem_map.1 h
  rcases mem_mapSet m k v e he with h | h
  · exact Or.inl (by rw [h])
  · exact Or.inr (List.mem_map.2 ⟨e, h, rfl⟩)

theorem nodup_mapSet {κ ν : Type} [DecidableEq κ] (m : List (κ × ν)) (k : κ) (v : ν)
    (h : (m.map Prod.fst).Nodup) : ((mapSet m k v).map Prod.fst).Nodup := by
  induction m with
  | nil => simp [mapSet]
  | cons x m ih =>
    obtain ⟨a, b⟩ := x
    simp only [List.map_cons, List.nodup_cons] at h
    by_cases hk : a = k
    · subst hk
      simp only [mapSet, if_true, List.map_cons, List.nodup_cons]
      exact h
    · simp only [mapSet, hk, if_false, List.map_cons, List.nodup_cons]
      refine ⟨fun hmem => ?_, ih h.2⟩
      rcases keys_mapSet m k v a hmem with h' | h'
      · exact hk h'
      · exact h.1 h'

theorem nodup_mapDelete {κ ν : Type} [DecidableEq κ] (m : List (κ × ν)) (k : κ)
    (h : (m.map Prod.fst).Nodup) : ((mapDelete m k).map Prod.fst).Nodup := by
  induction m with
  | nil => simp [mapDelete]
  | cons x m ih =>
    obtain ⟨a, b⟩ := x
    simp only [List.map_cons, List.nodup_cons] at h
    by_cases hk : a = k
    · simp only [mapDelete, hk, if_true]
      exact ih h.2
    · simp only [mapDelete, hk, if_false, List.map_cons, List.nodup_cons]
      refine ⟨fun hmem => ?_, ih h.2⟩
      obtain ⟨e, he, rfl⟩ := List.mem_map.1 hmem
      exact h.1 (List.mem_map.2 ⟨e, (mem_mapDelete m k e he).1, rfl⟩)

theorem mapGet_mem {κ ν : Type} [DecidableEq κ] (m : List (κ × ν)) (k : κ) (v : ν)
    (h : mapGet m k = some v) : (k, v) ∈ m := by
  induction m with
  | nil => simp [mapGet] at h
  | cons x m ih =>
    obtain ⟨a, b⟩ := x
    by_cases hk : a = k
    · simp [mapGet, hk] at h
      simp [hk, h]
    · simp [mapGet, hk] at h
      exact List.mem_cons_of_mem _ (ih h)

theorem mapGet_of_mem {κ ν : Type} [DecidableEq κ] (m : List (κ × ν)) (k : κ) (v : ν)
    (hn : (m.map Prod.fst).Nodup) (h : (k, v) ∈ m) : mapGet m k = some v := by
  induction m with
  | nil => simp at h
  | cons x m ih =>
    obtain ⟨a, b⟩ := x
    simp only [List.map_cons, List.nodup_cons] at hn
    rcases List.mem_cons.1 h with h | h
    · simp only [Prod.mk.injEq] at h
      simp [mapGet, h.1, h.2]
    · have : a ≠ k := fun e => hn.1 (e ▸ List.mem_map.2 ⟨(k, v), h, rfl⟩)
      simp [mapGet, this, ih hn.2 h]

theorem deref_append_lt (heap : List Contact) (c : Contact) (p : Ptr) (h : p < heap.length) :
    deref (heap ++ [c]) p = deref heap p := by
  simp [deref, List.getD_eq_getElem?_getD, List.getElem?_append_left h]

theorem deref_append_length (heap : List Contact) (c : Contact) :
    deref (heap ++ [c]) heap.length = c := by
  simp [deref, List.getD_eq_getElem?_getD]

theorem deref_set_ne (heap : List Contact) (c : Contact) (i p : Ptr) (h : p ≠ i) :
    deref (heap.set i c) p = deref heap p := by
  simp [deref, List.getD_eq_getElem?_getD, List.getElem?_set_ne (Ne.symm h)]

theorem deref_set_eq (heap : List Contact) (c : Contact) (i : Ptr) (h : i < heap.length) :
    deref (heap.set i c) i = c := by
  simp [deref, List.getD_eq_getElem?_getD, List.getElem?_set_self, h]

theorem Inv_zero : BookImpl.zero.Inv := by decide

theorem save_fst_snd {β : Type} (L : GoLib β) (book : BookImpl) (w : Option Err) (b : β)
    (h : (save L book w).2 = some b) : L.Marshal book.contacts = .ok b := by
  unfold save at h
  split at h
  · simp at h
  · next b' hb => simp at h; rw [hb, h]

/-- The book `AddContact` builds once validation and the uniqueness check have passed. -/
theorem AddContact_pass {β : Type} (L : GoLib β) (book : BookImpl) (contact : Contact)
    (w : Option Err) (hv : validate contact = none)
    (hu : mapGet book.contactsByUnique (uniqueKey contact) = none) :
    AddContact L book contact w =
      { err := (save L
            { topId := wrapInt (book.topId + 1)
              heap := book.heap ++ [{ contact with Id := wrapInt (book.topId + 1) }]
              contactsById := mapSet book.contactsById (wrapInt (book.topId + 1)) book.heap.length
              contactsByUnique :=
                mapSet book.contactsByUnique (uniqueKey contact) book.heap.length } w).1
        book :=
            { topId := wrapInt (book.topId + 1)
              heap := book.heap ++ [{ contact with Id := wrapInt (book.topId + 1) }]
              contactsById := mapSet book.contactsById (wrapInt (book.topId + 1)) book.heap.length
              contactsByUnique :=
                mapSet book.contactsByUnique (uniqueKey contact) book.heap.length }
        written := (save L
            { topId := wrapInt (book.topId + 1)
              heap := book.heap ++ [{ contact with Id := wrapInt (book.topId + 1) }]
              contactsById := mapSet book.contactsById (wrapInt (book.topId + 1)) book.heap.length
              contactsByUnique :=
                mapSet book.contactsByUnique (uniqueKey contact) book.heap.length } w).2
        id := some (wrapInt (book.topId + 1)) } := by
  simp only [AddContact, hv, hu]

theorem AddContact_invalid {β : Type} (L : GoLib β) (book : BookImpl) (contact : Contact)
    (w : Option Err) (e : Err) (hv : validate contact = some e) :
    AddContact L book contact w = { err := some e, book := book, written := none, id := none } := by
  simp only [AddContact, hv]

theorem AddContact_exists {β : Type} (L : GoLib β) (book : BookImpl) (contact : Contact)
    (w : Option Err) (p : Ptr) (hv : validate contact = none)
    (hu : mapGet book.contactsByUnique (uniqueKey contact) = some p) :
    AddContact L book contact w =
      { err := some (Err.ErrContactExists contact.FirstName contact.LastName),
        book := book, written := none, id := none } := by
  simp only [AddContact, hv, hu]

theorem Inv_AddContact {β : Type} (L : GoLib β) (book : BookImpl) (contact : Contact)
    (w : Option Err) (h : book.Inv) : (AddContact L book contact w).book.Inv := by
  cases hv : validate contact with
  | some e => rw [AddContact_invalid L book contact w e hv]; exact h
  | none =>
    cases hu : mapGet book.contactsByUnique (uniqueKey contact) with
    | some p => rw [AddContact_exists L book contact w p hv hu]; exact h
    | none =>
      rw [AddContact_pass L book contact w hv hu]
      refine ⟨?_, nodup_mapSet _ _ _ h.2⟩
      intro e he
      simp only [List.length_append, List.length_singleton]
      rcases mem_mapSet _ _ _ e he with he | he
      · subst he
        simp [deref_append_length]
      · have := h.1 e he
        rw [deref_append_lt _ _ _ this.1]
        exact ⟨Nat.lt_succ_of_lt this.1, this.2⟩

theorem Inv_UpdateContact {β : Type} (L : GoLib β) (book : BookImpl) (id : Int)
    (contact : Contact) (w : Option Err) (h : book.Inv) :
    (UpdateContact L book id contact w).book.Inv := by
  unfold UpdateContact
  split
  · exact h
  · next existing hex =>
    split
    · exact h
    · refine ⟨?_, h.2⟩
      intro e he
      have := h.1 e he
      simp only [List.length_set]
      refine ⟨this.1, ?_⟩
      by_cases hp : e.2 = existing
      · have hlt : existing < book.heap.length := hp ▸ this.1
        rw [hp, deref_set_eq _ _ _ hlt]
        simpa [hp] using this.2
      · rw [deref_set_ne _ _ _ _ hp]
        exact this.2

theorem Inv_DeleteContact {β : Type} (L : GoLib β) (book : BookImpl) (id : Int)
    (w : Option Err) (h : book.Inv) : (DeleteContact L book id w).book.Inv := by
  unfold DeleteContact
  split
  · exact h
  · refine ⟨?_, nodup_mapDelete _ _ h.2⟩
    intro e he
    exact h.1 e (mem_mapDelete _ _ e he).1

theorem Inv_exec {β : Type} (L : GoLib β) (book : BookImpl) (call : Call) (w : Option Err)
    (h : book.Inv) : (exec L book call w).book.Inv := by
  cases call with
  | AddContact c => exact Inv_AddContact L book c w h
  | UpdateContact id c => exact Inv_UpdateContact L book id c w h
  | DeleteContact id => exact Inv_DeleteContact L book id w h

theorem Inv_run {β : Type} (L : GoLib β) (tr : List (Call × Option Err)) (book : BookImpl)
    (h : book.Inv) : (run L book tr).Inv := by
  induction tr generalizing book with
  | nil => exact h
  | cons x tr ih => exact ih _ (Inv_exec L book x.1 x.2 h)

theorem Inv_loadLoop (cs : List (Option Contact)) (book book' : BookImpl) (h : book.Inv)
    (hl : loadLoop book cs = some book') : book'.Inv := by
  induction cs generalizing book with
  | nil => simp only [loadLoop, Option.some.injEq] at hl; exact hl ▸ h
  | cons c cs ih =>
    cases c with
    | none => simp [loadLoop] at hl
    | some c =>
      simp only [loadLoop] at hl
      refine ih _ ?_ hl
      refine ⟨?_, nodup_mapSet _ _ _ h.2⟩
      intro e he
      simp only [List.length_append, List.length_singleton]
      rcases mem_mapSet _ _ _ e he with he | he
      · subst he
        simp [deref_append_length]
      · have := h.1 e he
        rw [deref_append_lt _ _ _ this.1]
        exact ⟨Nat.lt_succ_of_lt this.1, this.2⟩

theorem Inv_New {β : Type} (L : GoLib β) (read : Except Err β) (e : Option Err)
    (book : BookImpl) (h : New L read = some (e, book)) : book.Inv := by
  unfold New load at h
  split at h
  · simp only [Option.some.injEq, Prod.mk.injEq] at h; exact h.2 ▸ Inv_zero
  · split at h
    · simp only [Option.some.injEq, Prod.mk.injEq] at h; exact h.2 ▸ Inv_zero
    · split at h
      · simp only [Option.some.injEq, Prod.mk.injEq] at h; exact h.2 ▸ Inv_zero
      · next cs _ =>
        cases hl : loadLoop BookImpl.zero cs with
        | none => simp [hl] at h
        | some bk =>
          simp only [hl, Option.map_some', Option.some.injEq, Prod.mk.injEq] at h
          exact h.2 ▸ Inv_loadLoop cs _ _ Inv_zero hl

theorem New_blank {β : Type} (L : GoLib β) (b : β) (h : L.len (L.TrimSpace b) = 0) :
    New L (.ok b) = some (none, BookImpl.zero) := by
  simp [New, load, h]

theorem UpdateContact_id {β : Type} (L : GoLib β) (book : BookImpl) (id : Int)
    (contact : Contact) (w : Option Err) :
    (UpdateContact L book id contact w).id = none ∧
      (UpdateContact L book id contact w).book.topId = book.topId ∧
      (UpdateContact L book id contact w).book.contactsById = book.contactsById ∧
      (UpdateContact L book id contact w).book.contactsByUnique = book.contactsByUnique := by
  unfold UpdateContact
  cases mapGet book.contactsById id with
  | none => simp
  | some existing =>
    cases validate contact with
    | none => simp
    | some e => simp

theorem DeleteContact_id {β : Type} (L : GoLib β) (book : BookImpl) (id : Int)
    (w : Option Err) :
    (DeleteContact L book id w).id = none ∧
      (DeleteContact L book id w).book.topId = book.topId ∧
      (DeleteContact L book id w).book.heap = book.heap ∧
      ∀ e ∈ (DeleteContact L book id w).book.contactsById, e ∈ book.contactsById := by
  unfold DeleteContact
  cases mapGet book.contactsById id with
  | none => simp
  | some existing =>
    simp only [true_and]
    intro e he
    exact (mem_mapDelete _ _ e he).1

theorem Within_exec {β : Type} (L : GoLib β) (book : BookImpl) (call : Call) (w : Option Err)
    (n : Nat) (hn : n + 1 < 2 ^ 63) (h : Within n book) :
    Within (n + 1) (exec L book call w).book ∧
      ∀ i, (exec L book call w).id = some i →
        i = book.topId + 1 ∧ (exec L book call w).book.topId = i := by
  obtain ⟨h0, h1, h2⟩ := h
  have hw : wrapInt (book.topId + 1) = book.topId + 1 :=
    wrapInt_of_small _ (by norm_num; omega) (by norm_num at hn ⊢; omega)
  cases call with
  | AddContact c =>
    simp only [exec]
    cases hv : validate c with
    | some e =>
      rw [AddContact_invalid L book c w e hv]
      exact ⟨⟨h0, by push_cast; omega, h2⟩, by simp⟩
    | none =>
      cases hu : mapGet book.contactsByUnique (uniqueKey c) with
      | some p =>
        rw [AddContact_exists L book c w p hv hu]
        exact ⟨⟨h0, by push_cast; omega, h2⟩, by simp⟩
      | none =>
        rw [AddContact_pass L book c w hv hu, hw]
        refine ⟨⟨by simp only; omega, by simp only; push_cast; omega, ?_⟩, by simp⟩
        intro e he
        rcases mem_mapSet _ _ _ e he with he | he
        · subst he
          simp only
          omega
        · have := h2 e he
          simp only
          omega
  | UpdateContact id c =>
    simp only [exec]
    obtain ⟨e1, e2, e3, _⟩ := UpdateContact_id L book id c w
    refine ⟨⟨by rw [e2]; exact h0, by rw [e2]; push_cast; omega, ?_⟩, by simp [e1]⟩
    rw [e2, e3]
    exact h2
  | DeleteContact id =>
    simp only [exec]
    obtain ⟨e1, e2, _, e4⟩ := DeleteContact_id L book id w
    refine ⟨⟨by rw [e2]; exact h0, by rw [e2]; push_cast; omega, ?_⟩, by simp [e1]⟩
    intro e he
    rw [e2]
    exact h2 e (e4 e he)

theorem ids_after {β : Type} (L : GoLib β) (tr : List (Call × Option Err)) (book : BookImpl)
    (n : Nat) (h : Within n book) (hn : n + tr.length < 2 ^ 63) :
    ((outcomes L book tr).filterMap (fun o => o.id)).Pairwise (fun i j => i < j) ∧
      ∀ i ∈ (outcomes L book tr).filterMap (fun o => o.id), book.topId < i := by
  induction tr generalizing book n with
  | nil => simp [outcomes]
  | cons x tr ih =>
    obtain ⟨call, w⟩ := x
    simp only [List.length_cons] at hn
    obtain ⟨hW, hid⟩ := Within_exec L book call w n (by omega) h
    obtain ⟨ih1, ih2⟩ := ih (exec L book call w).book (n + 1) hW (by omega)
    have hle : book.topId ≤ (exec L book call w).book.topId := by
      cases hi : (exec L book call w).id with
      | some i => have := hid i hi; omega
      | none =>
        cases call with
        | AddContact c =>
          simp only [exec] at hi ⊢
          cases hv : validate c with
          | some e => rw [AddContact_invalid L book c w e hv]
          | none =>
            cases hu : mapGet book.contactsByUnique (uniqueKey c) with
            | some p => rw [AddContact_exists L book c w p hv hu]
            | none => rw [AddContact_pass L book c w hv hu] at hi; simp at hi
        | UpdateContact id c => simp only [exec]; rw [(UpdateContact_id L book id c w).2.1]
        | DeleteContact id => simp only [exec]; rw [(DeleteContact_id L book id w).2.1]
    simp only [outcomes]
    cases hi : (exec L book call w).id with
    | none =>
      rw [List.filterMap_cons_none hi]
      exact ⟨ih1, fun i hmem => lt_of_le_of_lt hle (ih2 i hmem)⟩
    | some i =>
      rw [List.filterMap_cons_some hi]
      obtain ⟨hi1, hi2⟩ := hid i hi
      refine ⟨List.pairwise_cons.2 ⟨fun j hj => ?_, ih1⟩, fun j hj => ?_⟩
      · have := ih2 j hj; omega
      · rcases List.mem_cons.1 hj with hj | hj
        · omega
        · have := ih2 j hj; omega

theorem mapGet_none_of_not_mem {κ ν : Type} [DecidableEq κ] (m : List (κ × ν)) (k : κ)
    (h : k ∉ m.map Prod.fst) : mapGet m k = none := by
  cases hg : mapGet m k with
  | none => rfl
  | some v => exact absurd (List.mem_map.2 ⟨(k, v), mapGet_mem m k v hg, rfl⟩) h

theorem contactAt_loadLoop (cs : List Contact) (book : BookImpl) (h : book.Inv) :
    ∃ book', loadLoop book (cs.map some) = some book' ∧
      (∀ id, book'.contactAt id =
        cs.foldl (fun acc c => if c.Id = id then some c else acc) (book.contactAt id)) ∧
      book'.topId = cs.foldl (fun t c => if t < c.Id then c.Id else t) book.topId := by
  induction cs generalizing book with
  | nil => exact ⟨book, rfl, fun _ => rfl, rfl⟩
  | cons c cs ih =>
    have hInv : BookImpl.Inv
        { topId := if book.topId < c.Id then c.Id else book.topId
          heap := book.heap ++ [c]
          contactsById := mapSet book.contactsById c.Id book.heap.length
          contactsByUnique := mapSet book.contactsByUnique (uniqueKey c) book.heap.length } :=
      Inv_loadLoop [some c] book _ h rfl
    obtain ⟨book', h1, h2, h3⟩ := ih _ hInv
    refine ⟨book', by simpa [loadLoop] using h1, fun id => ?_, by simpa using h3⟩
    rw [h2 id, List.foldl_cons]
    congr 1
    simp only [BookImpl.contactAt, mapGet_mapSet]
    by_cases hid : c.Id = id
    · simp [hid, deref_append_length]
    · simp only [hid, if_false]
      cases hg : mapGet book.contactsById id with
      | none => rfl
      | some p =>
        have := (h.1 (id, p) (mapGet_mem _ _ _ hg)).1
        simp [deref_append_lt _ _ _ this]

theorem foldl_contacts (heap : List Contact) (m : List (Int × Ptr))
    (hid : ∀ e ∈ m, (deref heap e.2).Id = e.1) (hn : (m.map Prod.fst).Nodup) (id : Int)
    (acc : Option Contact) :
    (m.map (fun e => deref heap e.2)).foldl
        (fun acc c => if c.Id = id then some c else acc) acc =
      match mapGet m id with
      | some p => some (deref heap p)
      | none => acc := by
  induction m generalizing acc with
  | nil => rfl
  | cons x m ih =>
    obtain ⟨k, p⟩ := x
    simp only [List.map_cons, List.nodup_cons] at hn
    have hk := hid (k, p) (List.mem_cons_self _ _)
    simp only at hk
    rw [List.map_cons, List.foldl_cons, ih (fun e he => hid e (List.mem_cons_of_mem _ he)) hn.2]
    by_cases hkid : k = id
    · subst hkid
      simp [mapGet, hk, mapGet_none_of_not_mem m k hn.1]
    · simp [mapGet, hk, hkid]

theorem topId_foldl (cs : List Contact) (t : Int) :
    t ≤ cs.foldl (fun t c => if t < c.Id then c.Id else t) t ∧
      (∀ c ∈ cs, c.Id ≤ cs.foldl (fun t c => if t < c.Id then c.Id else t) t) ∧
      (cs.foldl (fun t c => if t < c.Id then c.Id else t) t = t ∨
        ∃ c ∈ cs, c.Id = cs.foldl (fun t c => if t < c.Id then c.Id else t) t) := by
  induction cs generalizing t with
  | nil => simp
  | cons c cs ih =>
    obtain ⟨h1, h2, h3⟩ := ih (if t < c.Id then c.Id else t)
    simp only [List.foldl_cons, List.mem_cons]
    by_cases hlt : t < c.Id
    · simp only [hlt, if_true] at h1 h2 h3 ⊢
      refine ⟨by omega, ?_, ?_⟩
      · intro d hd
        rcases hd with hd | hd
        · subst hd; exact h1
        · exact h2 d hd
      · rcases h3 with h3 | ⟨d, hd, h3⟩
        · exact Or.inr ⟨c, Or.inl rfl, h3.symm⟩
        · exact Or.inr ⟨d, Or.inr hd, h3⟩
    · simp only [hlt, if_false] at h1 h2 h3 ⊢
      refine ⟨h1, ?_, ?_⟩
      · intro d hd
        rcases hd with hd | hd
        · subst hd; omega
        · exact h2 d hd
      · rcases h3 with h3 | ⟨d, hd, h3⟩
        · exact Or.inl h3
        · exact Or.inr ⟨d, Or.inr hd, h3⟩

/-- Loading the decoded contacts of a well-formed book into a fresh book. -/
theorem reload {β : Type} (L : GoLib β) (book : BookImpl) (b : β) (h : book.Inv)
    (hnb : L.len (L.TrimSpace b) ≠ 0)
    (hdec : L.Unmarshal b = .ok (book.contacts.map some)) :
    ∃ book', New L (.ok b) = some (none, book') ∧
      (∀ id, book'.contactAt id = book.contactAt id) ∧
      0 ≤ book'.topId ∧
      (∀ id c, book.contactAt id = some c → id ≤ book'.topId) ∧
      (book'.topId = 0 ∨ ∃ c, book.contactAt book'.topId = some c) := by
  obtain ⟨book', h1, h2, h3⟩ := contactAt_loadLoop book.contacts BookImpl.zero Inv_zero
  have hat : ∀ id, book'.contactAt id = book.contactAt id := by
    intro id
    rw [h2 id]
    have := foldl_contacts book.heap book.contactsById (fun e he => (h.1 e he).2) h.2 id
      (BookImpl.zero.contactAt id)
    simp only [BookImpl.contacts]
    rw [this]
    simp only [BookImpl.contactAt]
    cases mapGet book.contactsById id with
    | none => rfl
    | some p => rfl
  obtain ⟨t1, t2, t3⟩ := topId_foldl book.contacts BookImpl.zero.topId
  rw [← h3] at t1 t2 t3
  refine ⟨book', ?_, hat, t1, ?_, ?_⟩
  · simp [New, load, hnb, hdec, h1]
  · intro id c hc
    simp only [BookImpl.contactAt] at hc
    cases hg : mapGet book.contactsById id with
    | none => simp [hg] at hc
    | some p =>
      have hmem := mapGet_mem _ _ _ hg
      have := t2 (deref book.heap p) (List.mem_map.2 ⟨(id, p), hmem, rfl⟩)
      rw [(h.1 (id, p) hmem).2] at this
      exact this
  · rcases t3 with t3 | ⟨c, hc, t3⟩
    · exact Or.inl t3
    · right
      obtain ⟨e, he, rfl⟩ := List.mem_map.1 hc
      refine ⟨deref book.heap e.2, ?_⟩
      have hk : e.1 = book'.topId := by rw [← t3]; exact ((h.1 e he).2).symm
      simp only [BookImpl.contactAt]
      rw [← hk, mapGet_of_mem _ e.1 e.2 h.2 he]
      rfl

/-! ## Helper facts on the operations -/

theorem losslessLib_roundTrip : losslessLib.RoundTrip := by
  intro cs b h
  simp only [losslessLib, Except.ok.injEq] at h
  subst h
  exact ⟨by simp [losslessLib], rfl⟩

theorem exec_written {β : Type} (L : GoLib β) (book : BookImpl) (call : Call)
    (w : Option Err) (b : β) (h : (exec L book call w).written = some b) :
    L.Marshal (exec L book call w).book.contacts = .ok b := by
  cases call with
  | AddContact c =>
    simp only [exec] at h ⊢
    cases hv : validate c with
    | some e => rw [AddContact_invalid L book c w e hv] at h; simp at h
    | none =>
      cases hu : mapGet book.contactsByUnique (uniqueKey c) with
      | some p => rw [AddContact_exists L book c w p hv hu] at h; simp at h
      | none =>
        rw [AddContact_pass L book c w hv hu] at h ⊢
        exact save_fst_snd L _ w b h
  | UpdateContact id c =>
    simp only [exec, UpdateContact] at h ⊢
    cases hg : mapGet book.contactsById id with
    | none => simp [hg] at h
    | some existing =>
      cases hv : validate c with
      | some e => simp [hg, hv] at h
      | none =>
        simp only [hg, hv] at h ⊢
        exact save_fst_snd L _ w b h
  | DeleteContact id =>
    simp only [exec, DeleteContact] at h ⊢
    cases hg : mapGet book.contactsById id with
    | none => simp [hg] at h
    | some existing =>
      simp only [hg] at h ⊢
      exact save_fst_snd L _ w b h

theorem outcomes_getLast {β : Type} (L : GoLib β) (tr : List (Call × Option Err))
    (book : BookImpl) (o : Outcome β) (h : (outcomes L book tr).getLast? = some o) :
    o.book = run L book tr ∧
      ∃ pre book0 call w, tr = pre ++ [(call, w)] ∧ book0 = run L book pre ∧
        o = exec L book0 call w := by
  induction tr generalizing book with
  | nil => simp [outcomes] at h
  | cons x tr ih =>
    obtain ⟨call, w⟩ := x
    cases tr with
    | nil =>
      simp only [outcomes, List.getLast?_singleton, Option.some.injEq] at h
      subst h
      exact ⟨rfl, [], book, call, w, rfl, rfl, rfl⟩
    | cons y tr =>
      have h2 : (outcomes L (exec L book call w).book (y :: tr)).getLast? = some o := by
        simpa [outcomes, List.getLast?_cons_cons] using h
      obtain ⟨e1, pre, book0, call2, w2, e2, e3, e4⟩ := ih _ h2
      refine ⟨by simpa [run] using e1, (call, w) :: pre, book0, call2, w2, ?_, ?_, e4⟩
      · rw [e2]; rfl
      · simpa [run] using e3

theorem Within_run {β : Type} (L : GoLib β) (tr : List (Call × Option Err)) (book : BookImpl)
    (n : Nat) (h : Within n book) (hn : n + tr.length < 2 ^ 63) :
    Within (n + tr.length) (run L book tr) := by
  induction tr generalizing book n with
  | nil => simpa [run] using h
  | cons x tr ih =>
    obtain ⟨call, w⟩ := x
    simp only [List.length_cons] at hn ⊢
    have := ih (exec L book call w).book (n + 1)
      (Within_exec L book call w n (by omega) h).1 (by omega)
    simpa [run, Nat.add_assoc, Nat.add_comm 1] using this

/-! ## The sorted slice of ListContacts -/

theorem sortSlice_perm {α : Type} (less : α → α → Bool) (l : List α) :
    (sortSlice less l).Perm l :=
  List.perm_insertionSort _ l

theorem contacts_ids (book : BookImpl) (h : book.Inv) :
    book.contacts.map (fun c => c.Id) = book.contactsById.map Prod.fst := by
  simp only [BookImpl.contacts, List.map_map]
  exact List.map_congr_left (fun e he => (h.1 e he).2)

theorem listed_perm (book : BookImpl) : book.listed.Perm book.contacts :=
  sortSlice_perm _ _

theorem listed_ascending (book : BookImpl) (h : book.Inv) :
    book.listed.Pairwise (fun a b => a.Id < b.Id) := by
  have hs : (book.listed).Sorted (fun a b : Contact => decide (b.Id < a.Id) = false) := by
    haveI : IsTotal Contact (fun a b : Contact => decide (b.Id < a.Id) = false) :=
      ⟨fun a b => by simp only [decide_eq_false_iff_not, not_lt]; omega⟩
    haveI : IsTrans Contact (fun a b : Contact => decide (b.Id < a.Id) = false) :=
      ⟨fun a b c => by simp only [decide_eq_false_iff_not, not_lt]; omega⟩
    exact List.sorted_insertionSort _ _
  have hn : (book.listed.map (fun c => c.Id)).Nodup := by
    have hp : (book.listed.map (fun c => c.Id)).Perm (book.contactsById.map Prod.fst) := by
      rw [← contacts_ids book h]
      exact (listed_perm book).map _
    exact hp.nodup_iff.2 h.2
  have hne : book.listed.Pairwise (fun a b => a.Id ≠ b.Id) := List.pairwise_map.1 hn
  refine (List.Pairwise.and hs hne).imp ?_
  intro a b hab
  have h1 := hab.1
  have h2 := hab.2
  simp only [decide_eq_false_iff_not, not_lt] at h1
  omega

theorem listed_eq_of_perm (book book2 : BookImpl) (h : book.Inv) (h2 : book2.Inv)
    (hp : book2.contacts.Perm book.contacts) : book2.listed = book.listed := by
  haveI : IsAntisymm Contact (fun a b : Contact => a.Id < b.Id) :=
    ⟨fun a b hab hba => absurd hab (not_lt.2 (le_of_lt hba))⟩
  exact List.eq_of_perm_of_sorted
    (((listed_perm book2).trans hp).trans (listed_perm book).symm)
    (listed_ascending book2 h2) (listed_ascending book h)

theorem mem_contacts_iff (book : BookImpl) (h : book.Inv) (c : Contact) :
    c ∈ book.contacts ↔ ∃ id, book.contactAt id = some c := by
  constructor
  · intro hc
    obtain ⟨e, he, rfl⟩ := List.mem_map.1 hc
    refine ⟨e.1, ?_⟩
    simp [BookImpl.contactAt, mapGet_of_mem _ e.1 e.2 h.2 he]
  · rintro ⟨id, hc⟩
    simp only [BookImpl.contactAt] at hc
    cases hg : mapGet book.contactsById id with
    | none => simp [hg] at hc
    | some p =>
      simp only [hg, Option.map_some', Option.some.injEq] at hc
      exact List.mem_map.2 ⟨(id, p), mapGet_mem _ _ _ hg, hc⟩

/-! ## Validation (C1, C9) and absent ids (C10) -/

/-- C1. `validate` rejects a contact as soon as one of the two names is empty: a contact
with an empty first name and the last name Lee, and one with the first name Ann and an
empty last name, get ErrContactInvalid from `validate`, from AddContact on an empty book
and from UpdateContact on an existing id. -/
theorem validate_rejects_one_blank_name :
    validate { Id := 0, FirstName := "", LastName := "Lee", TelephoneNumbers := [] } =
        some Err.ErrContactInvalid ∧
      validate { Id := 0, FirstName := "Ann", LastName := "", TelephoneNumbers := [] } =
        some Err.ErrContactInvalid ∧
      AddContact losslessLib BookImpl.zero
          { Id := 0, FirstName := "", LastName := "Lee", TelephoneNumbers := ["123"] } none =
        { err := some Err.ErrContactInvalid, book := BookImpl.zero, written := none,
          id := none } ∧
      UpdateContact losslessLib annBook 1
          { Id := 0, FirstName := "Ann", LastName := "", TelephoneNumbers := [] } none =
        { err := some Err.ErrContactInvalid, book := annBook, written := none, id := none } := by
  decide

/-! ## Ids within one book (C2) -/

/-- C2. In one book started from an empty snapshot, along every sequence of fewer than
2^63 calls of AddContact, UpdateContact and DeleteContact (whatever the store answers),
the ids assigned by AddContact are positive and each one is strictly greater than all
ids assigned before it, deleted contacts included. -/
theorem ids_strictly_increasing {β : Type} (L : GoLib β) (b : β)
    (tr : List (Call × Option Err)) (hblank : L.len (L.TrimSpace b) = 0)
    (hlen : tr.length < 2 ^ 63) :
    ∃ book, New L (.ok b) = some (none, book) ∧
      ((outcomes L book tr).filterMap (fun o => o.id)).Pairwise (fun i j => i < j) ∧
      ∀ i ∈ (outcomes L book tr).filterMap (fun o => o.id), 0 < i := by
  refine ⟨BookImpl.zero, New_blank L b hblank, ?_⟩
  have hW : Within 0 BookImpl.zero := by simp [Within, BookImpl.zero]
  exact ids_after L tr BookImpl.zero 0 hW (by omega)

theorem ids_strictly_increasing_witness :
    losslessLib.len (losslessLib.TrimSpace none) = 0 ∧
      (addAddDelete ++ [(Call.AddContact carlRay, none)]).length < 2 ^ 63 ∧
      ∃ book, New losslessLib (.ok none) = some (none, book) ∧
        ((outcomes losslessLib book (addAddDelete ++ [(Call.AddContact carlRay, none)])).filterMap
          (fun o => o.id)).Pairwise (fun i j => i < j) ∧
        ∀ i ∈ (outcomes losslessLib book (addAddDelete ++ [(Call.AddContact carlRay, none)])).filterMap
          (fun o => o.id), 0 < i :=
  ⟨rfl, by decide,
    ids_strictly_increasing losslessLib none (addAddDelete ++ [(Call.AddContact carlRay, none)])
      rfl (by decide)⟩

/-! ## Reloading the snapshot (C3, C7) -/

/-- C3, as stated, fails. On a book started empty, AddContact of Ann Lee (id 1), AddContact
of Bob Lee (id 2) and DeleteContact of 2 all succeed and leave topId 2; the snapshot
written last holds contact 1 only; New on it gives topId 1, and the next AddContact on the
reloaded book succeeds with id 2, the id of the deleted contact. -/
theorem reload_reuses_deleted_id :
    (outcomes losslessLib BookImpl.zero
        [(.AddContact annLee, none), (.AddContact bobLee, none),
         (.DeleteContact 2, none)]).map (fun o => (o.err, o.id, o.book.topId)) =
        [(none, some 1, 1), (none, some 2, 2), (none, none, 2)] ∧
      (outcomes losslessLib BookImpl.zero
        [(.AddContact annLee, none), (.AddContact bobLee, none),
         (.DeleteContact 2, none)]).getLast?.map (fun o => o.written) =
        some (some (some
          [some { Id := 1, FirstName := "Ann", LastName := "Lee", TelephoneNumbers := ["123"] }])) ∧
      (New losslessLib (.ok (some
          [some { Id := 1, FirstName := "Ann", LastName := "Lee", TelephoneNumbers := ["123"] }]))).map
          (fun r => (r.1, r.2.topId, (AddContact losslessLib r.2 carlRay none).err,
            (AddContact losslessLib r.2 carlRay none).id)) =
        some (none, 1, none, some 2) := by
  decide

/-- C3, amended. For a book started empty and a sequence of fewer than 2^63 - 1 calls whose
last call wrote the snapshot `b`, with `encoding/json` making the round trip: New on `b`
succeeds; the topId of the reloaded book is the id of a contact still stored when the
snapshot was written, or 0; it is at least the id of every stored contact and at most the
topId of the original book; and the id the next AddContact on the reloaded book assigns is
the id of no contact stored in the original book. -/
theorem reload_topId {β : Type} (L : GoLib β) (hrt : L.RoundTrip)
    (tr : List (Call × Option Err)) (o : Outcome β) (b : β)
    (hlen : tr.length + 1 < 2 ^ 63)
    (hlast : (outcomes L BookImpl.zero tr).getLast? = some o)
    (hw : o.written = some b) :
    ∃ book', New L (.ok b) = some (none, book') ∧
      (book'.topId = 0 ∨ ∃ c, o.book.contactAt book'.topId = some c) ∧
      (∀ id c, o.book.contactAt id = some c → id ≤ book'.topId) ∧
      book'.topId ≤ o.book.topId ∧
      ∀ c w i, (AddContact L book' c w).id = some i → o.book.contactAt i = none := by
  obtain ⟨hrun, pre, book0, call, w0, hpre, hb0, ho⟩ := outcomes_getLast L tr _ o hlast
  have hInv : o.book.Inv := hrun ▸ Inv_run L tr _ Inv_zero
  have hW0 : Within 0 BookImpl.zero := by simp [Within, BookImpl.zero]
  have hW : Within (0 + tr.length) o.book := hrun ▸ Within_run L tr _ 0 hW0 (by omega)
  have hm : L.Marshal o.book.contacts = .ok b := by
    rw [ho] at hw ⊢
    exact exec_written L book0 call w0 b hw
  obtain ⟨hnb, hdec⟩ := hrt _ _ hm
  obtain ⟨book', h1, h2, h3, h4, h5⟩ := reload L o.book b hInv hnb hdec
  have hle : book'.topId ≤ o.book.topId := by
    rcases h5 with h5 | ⟨c, hc⟩
    · rw [h5]; exact hW.1
    · simp only [BookImpl.contactAt] at hc
      cases hg : mapGet o.book.contactsById book'.topId with
      | none => simp [hg] at hc
      | some p => exact (hW.2.2 _ (mapGet_mem _ _ _ hg)).2
  refine ⟨book', h1, h5, h4, hle, ?_⟩
  intro c w i hi
  have hwrap : wrapInt (book'.topId + 1) = book'.topId + 1 := by
    have := hW.2.1
    refine wrapInt_of_small _ (by norm_num; omega) ?_
    have h63 : ((2 : Nat) ^ 63 : Nat) = 9223372036854775808 := by norm_num
    rw [h63] at hlen
    norm_num
    omega
  have hi' : i = book'.topId + 1 := by
    cases hv : validate c with
    | some e => rw [AddContact_invalid L book' c w e hv] at hi; simp at hi
    | none =>
      cases hu : mapGet book'.contactsByUnique (uniqueKey c) with
      | some p => rw [AddContact_exists L book' c w p hv hu] at hi; simp at hi
      | none =>
        rw [AddContact_pass L book' c w hv hu, hwrap] at hi
        simp only [Option.some.injEq] at hi
        exact hi.symm
  cases hc : o.book.contactAt i with
  | none => rfl
  | some d =>
    have := h4 i d hc
    omega

theorem reload_topId_witness :
    losslessLib.RoundTrip ∧ addAddDelete.length + 1 < 2 ^ 63 ∧
      (outcomes losslessLib BookImpl.zero addAddDelete).getLast? =
        some (DeleteContact losslessLib (run losslessLib annBook [(.AddContact bobLee, none)])
          2 none) ∧
      (DeleteContact losslessLib (run losslessLib annBook [(.AddContact bobLee, none)])
          2 none).written =
        some (some
          [some { Id := 1, FirstName := "Ann", LastName := "Lee", TelephoneNumbers := ["123"] }]) ∧
      ∃ book', New losslessLib (.ok (some
          [some { Id := 1, FirstName := "Ann", LastName := "Lee", TelephoneNumbers := ["123"] }])) =
          some (none, book') ∧
        (book'.topId = 0 ∨ ∃ c,
          (DeleteContact losslessLib (run losslessLib annBook [(.AddContact bobLee, none)])
            2 none).book.contactAt book'.topId = some c) ∧
        (∀ id c,
          (DeleteContact losslessLib (run losslessLib annBook [(.AddContact bobLee, none)])
            2 none).book.contactAt id = some c → id ≤ book'.topId) ∧
        book'.topId ≤
          (DeleteContact losslessLib (run losslessLib annBook [(.AddContact bobLee, none)])
            2 none).book.topId ∧
        ∀ c w i, (AddContact losslessLib book' c w).id = some i →
          (DeleteContact losslessLib (run losslessLib annBook [(.AddContact bobLee, none)])
            2 none).book.contactAt i = none :=
  ⟨losslessLib_roundTrip, by decide, by decide, by decide,
    reload_topId losslessLib losslessLib_roundTrip addAddDelete
      (DeleteContact losslessLib (run losslessLib annBook [(.AddContact bobLee, none)]) 2 none)
      (some [some { Id := 1, FirstName := "Ann", LastName := "Lee", TelephoneNumbers := ["123"] }])
      (by decide) (by decide) (by decide)⟩

/-- C7. Round trip. When a call on a well-formed book succeeds, writes the bytes `b` and
leaves at least one contact, and `encoding/json` makes the round trip, then `b` decodes to
exactly the contacts of contactsById, New on a store whose Read returns `b` succeeds, the
new book holds under every id the same contact as the old one (nothing added, nothing
lost), each under its own Id, and its topId is at least every id present. -/
theorem save_load_roundtrip {β : Type} (L : GoLib β) (hrt : L.RoundTrip) (book : BookImpl)
    (call : Call) (w : Option Err) (b : β) (hInv : book.Inv)
    (herr : (exec L book call w).err = none)
    (hw : (exec L book call w).written = some b)
    (hne : (exec L book call w).book.contactsById ≠ []) :
    L.Unmarshal b = .ok ((exec L book call w).book.contacts.map some) ∧
      ∃ book', New L (.ok b) = some (none, book') ∧
        (∀ id, book'.contactAt id = (exec L book call w).book.contactAt id) ∧
        ∀ id c, book'.contactAt id = some c → c.Id = id ∧ id ≤ book'.topId := by
  have _ := herr
  have _ := hne
  have hInv' := Inv_exec L book call w hInv
  obtain ⟨hnb, hdec⟩ := hrt _ _ (exec_written L book call w b hw)
  obtain ⟨book', h1, h2, _, h4, _⟩ := reload L _ b hInv' hnb hdec
  refine ⟨hdec, book', h1, h2, ?_⟩
  intro id c hc
  rw [h2 id] at hc
  refine ⟨?_, h4 id c hc⟩
  simp only [BookImpl.contactAt] at hc
  cases hg : mapGet (exec L book call w).book.contactsById id with
  | none => simp [hg] at hc
  | some p =>
    simp only [hg, Option.map_some', Option.some.injEq] at hc
    rw [← hc]
    exact (hInv'.1 _ (mapGet_mem _ _ _ hg)).2

theorem save_load_roundtrip_witness :
    losslessLib.RoundTrip ∧ shuffledBook.Inv ∧
      (exec losslessLib shuffledBook (.UpdateContact 1 bobLee) none).err = none ∧
      (exec losslessLib shuffledBook (.UpdateContact 1 bobLee) none).written =
        some (some
          [some { Id := 3, FirstName := "Carl", LastName := "Ray", TelephoneNumbers := [] },
           some { Id := 1, FirstName := "Bob", LastName := "Lee", TelephoneNumbers := ["456"] },
           some { Id := 2, FirstName := "Bob", LastName := "Lee", TelephoneNumbers := ["456"] }]) ∧
      (exec losslessLib shuffledBook (.UpdateContact 1 bobLee) none).book.contactsById ≠ [] ∧
      losslessLib.Unmarshal (some
          [some { Id := 3, FirstName := "Carl", LastName := "Ray", TelephoneNumbers := [] },
           some { Id := 1, FirstName := "Bob", LastName := "Lee", TelephoneNumbers := ["456"] },
           some { Id := 2, FirstName := "Bob", LastName := "Lee", TelephoneNumbers := ["456"] }]) =
        .ok ((exec losslessLib shuffledBook (.UpdateContact 1 bobLee) none).book.contacts.map
          some) ∧
      ∃ book', New losslessLib (.ok (some
          [some { Id := 3, FirstName := "Carl", LastName := "Ray", TelephoneNumbers := [] },
           some { Id := 1, FirstName := "Bob", LastName := "Lee", TelephoneNumbers := ["456"] },
           some { Id := 2, FirstName := "Bob", LastName := "Lee", TelephoneNumbers := ["456"] }])) =
          some (none, book') ∧
        (∀ id, book'.contactAt id =
          (exec losslessLib shuffledBook (.UpdateContact 1 bobLee) none).book.contactAt id) ∧
        ∀ id c, book'.contactAt id = some c → c.Id = id ∧ id ≤ book'.topId :=
  ⟨losslessLib_roundTrip, by decide, by decide, by decide, by decide,
    save_load_roundtrip losslessLib losslessLib_roundTrip shuffledBook
      (.UpdateContact 1 bobLee) none
      (some
        [some { Id := 3, FirstName := "Carl", LastName := "Ray", TelephoneNumbers := [] },
         some { Id := 1, FirstName := "Bob", LastName := "Lee", TelephoneNumbers := ["456"] },
         some { Id := 2, FirstName := "Bob", LastName := "Lee", TelephoneNumbers := ["456"] }])
      (by decide) (by decide) (by decide) (by decide)⟩

/-! ## The uniqueness index after a rename (C4, C5, C6) -/

/-- C4. After AddContact of Ann Lee and UpdateContact of id 1 to the name Bob Lee, the live
contact 1 is named Bob Lee, and AddContact of another Bob Lee returns no error and is
given id 2. -/
theorem add_duplicate_after_rename :
    (run losslessLib BookImpl.zero
        [(.AddContact annLee, none), (.UpdateContact 1 bobLee, none)]).contactAt 1 =
        some { Id := 1, FirstName := "Bob", LastName := "Lee", TelephoneNumbers := ["456"] } ∧
      AddContact losslessLib
          (run losslessLib BookImpl.zero
            [(.AddContact annLee, none), (.UpdateContact 1 bobLee, none)])
          { Id := 0, FirstName := "Bob", LastName := "Lee", TelephoneNumbers := ["789"] } none =
        { err := none
          book :=
            { topId := 2
              heap :=
                [{ Id := 1, FirstName := "Bob", LastName := "Lee", TelephoneNumbers := ["456"] },
                 { Id := 2, FirstName := "Bob", LastName := "Lee", TelephoneNumbers := ["789"] }]
              contactsById := [(1, 0), (2, 1)]
              contactsByUnique := [("Ann:Lee", 0), ("Bob:Lee", 1)] }
          written := some (some
            [some { Id := 1, FirstName := "Bob", LastName := "Lee", TelephoneNumbers := ["456"] },
             some { Id := 2, FirstName := "Bob", LastName := "Lee", TelephoneNumbers := ["789"] }])
          id := some 2 } := by
  decide

/-- C5. After AddContact of Ann Lee and UpdateContact of id 1 to the name Bob Lee, contact 1
of contactsById has the key Bob:Lee, under which contactsByUnique holds nothing, and the
entry of contactsByUnique under Ann:Lee is that contact, whose key is not Ann:Lee. -/
theorem indices_out_of_sync_after_rename :
    (run losslessLib BookImpl.zero
        [(.AddContact annLee, none), (.UpdateContact 1 bobLee, none)]).contactAt 1 =
        some { Id := 1, FirstName := "Bob", LastName := "Lee", TelephoneNumbers := ["456"] } ∧
      uniqueKey { Id := 1, FirstName := "Bob", LastName := "Lee", TelephoneNumbers := ["456"] } =
        "Bob:Lee" ∧
      (run losslessLib BookImpl.zero
        [(.AddContact annLee, none), (.UpdateContact 1 bobLee, none)]).uniqueAt "Bob:Lee" =
        none ∧
      (run losslessLib BookImpl.zero
        [(.AddContact annLee, none), (.UpdateContact 1 bobLee, none)]).uniqueAt "Ann:Lee" =
        some { Id := 1, FirstName := "Bob", LastName := "Lee", TelephoneNumbers := ["456"] } := by
  decide

/-- C6. After AddContact of Ann Lee, AddContact of Bob Lee and UpdateContact of id 2 to the
name Ann Lee, all three succeeding, the contacts 1 and 2 of contactsById both have the
uniqueness key Ann:Lee. -/
theorem two_live_contacts_share_key :
    (outcomes losslessLib BookImpl.zero
        [(.AddContact annLee, none), (.AddContact bobLee, none),
         (.UpdateContact 2 annLee, none)]).map (fun o => o.err) = [none, none, none] ∧
      (run losslessLib BookImpl.zero
        [(.AddContact annLee, none), (.AddContact bobLee, none),
         (.UpdateContact 2 annLee, none)]).contactAt 1 =
        some { Id := 1, FirstName := "Ann", LastName := "Lee", TelephoneNumbers := ["123"] } ∧
      (run losslessLib BookImpl.zero
        [(.AddContact annLee, none), (.AddContact bobLee, none),
         (.UpdateContact 2 annLee, none)]).contactAt 2 =
        some { Id := 2, FirstName := "Ann", LastName := "Lee", TelephoneNumbers := ["123"] } ∧
      uniqueKey { Id := 1, FirstName := "Ann", LastName := "Lee", TelephoneNumbers := ["123"] } =
        uniqueKey { Id := 2, FirstName := "Ann", LastName := "Lee", TelephoneNumbers := ["123"] } := by
  decide

/-! ## Listing (C8) -/

/-- C8. On a well-formed book, ListContacts calls the callback exactly once, with a slice
that holds every contact of contactsById once and nothing else, strictly ascending by Id,
and the same whatever the order of the entries in the map; it returns what the callback
returns and leaves the book as it was. -/
theorem ListContacts_ascending (book : BookImpl) (cb : List Contact → Option Err)
    (h : book.Inv) :
    (ListContacts book cb).calls = [book.listed] ∧
      (ListContacts book cb).err = cb book.listed ∧
      (ListContacts book cb).book = book ∧
      book.listed.Perm book.contacts ∧
      (∀ c, c ∈ book.listed ↔ ∃ id, book.contactAt id = some c) ∧
      book.listed.Nodup ∧
      book.listed.Pairwise (fun a b => a.Id < b.Id) ∧
      ∀ book2 : BookImpl, book2.Inv → book2.contacts.Perm book.contacts →
        book2.listed = book.listed := by
  refine ⟨rfl, rfl, rfl, listed_perm book, ?_, ?_, listed_ascending book h, ?_⟩
  · intro c
    rw [(listed_perm book).mem_iff]
    exact mem_contacts_iff book h c
  · exact (listed_ascending book h).imp (fun hab e => by rw [e] at hab; exact lt_irrefl _ hab)
  · intro book2 h2 hp
    exact listed_eq_of_perm book book2 h h2 hp

theorem ListContacts_ascending_witness :
    shuffledBook.Inv ∧
      (ListContacts shuffledBook (fun _ => some (Err.other "stop"))).calls =
        [shuffledBook.listed] ∧
      (ListContacts shuffledBook (fun _ => some (Err.other "stop"))).err =
        (fun _ => some (Err.other "stop")) shuffledBook.listed ∧
      (ListContacts shuffledBook (fun _ => some (Err.other "stop"))).book = shuffledBook ∧
      shuffledBook.listed.Perm shuffledBook.contacts ∧
      (∀ c, c ∈ shuffledBook.listed ↔ ∃ id, shuffledBook.contactAt id = some c) ∧
      shuffledBook.listed.Nodup ∧
      shuffledBook.listed.Pairwise (fun a b => a.Id < b.Id) ∧
      ∀ book2 : BookImpl, book2.Inv → book2.contacts.Perm shuffledBook.contacts →
        book2.listed = shuffledBook.listed :=
  ⟨by decide, ListContacts_ascending shuffledBook (fun _ => some (Err.other "stop")) (by decide)⟩

/-! ## Rejected calls leave no trace (C9, C10) -/

/-- C9. AddContact of a contact whose two names are empty returns ErrContactInvalid, leaves
the book (topId, both maps and the objects) as it was, assigns no id and does not call
`store.Write`. -/
theorem AddContact_both_blank {β : Type} (L : GoLib β) (book : BookImpl) (contact : Contact)
    (w : Option Err) (hf : contact.FirstName = "") (hl : contact.LastName = "") :
    AddContact L book contact w =
      { err := some Err.ErrContactInvalid, book := book, written := none, id := none } := by
  apply AddContact_invalid
  simp [validate, hf, hl]

theorem AddContact_both_blank_witness :
    (Contact.mk 7 "" "" ["123"]).FirstName = "" ∧ (Contact.mk 7 "" "" ["123"]).LastName = "" ∧
      AddContact losslessLib annBook (Contact.mk 7 "" "" ["123"]) none =
        { err := some Err.ErrContactInvalid, book := annBook, written := none, id := none } :=
  ⟨rfl, rfl, AddContact_both_blank losslessLib annBook (Contact.mk 7 "" "" ["123"]) none rfl rfl⟩

/-- C10. For an id that is not a key of contactsById, UpdateContact (with any contact, valid
or not) and DeleteContact return ErrContactMissing for that id, do not call `store.Write`
and leave the book as it was. -/
theorem missing_id_rejected {β : Type} (L : GoLib β) (book : BookImpl) (id : Int)
    (contact : Contact) (w : Option Err) (h : id ∉ book.contactsById.map Prod.fst) :
    UpdateContact L book id contact w =
        { err := some (Err.ErrContactMissing id), book := book, written := none, id := none } ∧
      DeleteContact L book id w =
        { err := some (Err.ErrContactMissing id), book := book, written := none, id := none } := by
  have hg := mapGet_none_of_not_mem book.contactsById id h
  constructor
  · simp only [UpdateContact, hg]
  · simp only [DeleteContact, hg]

theorem missing_id_rejected_witness :
    (5 : Int) ∉ annBook.contactsById.map Prod.fst ∧
      UpdateContact losslessLib annBook 5 bobLee none =
        { err := some (Err.ErrContactMissing 5), book := annBook, written := none, id := none } ∧
      DeleteContact losslessLib annBook 5 none =
        { err := some (Err.ErrContactMissing 5), book := annBook, written := none, id := none } :=
  ⟨by decide, missing_id_rejected losslessLib annBook 5 bobLee none (by decide)⟩

/-! ## The counter and the stored ids (C11) -/

theorem exec_topId {β : Type} (L : GoLib β) (book : BookImpl) (call : Call) (w : Option Err) :
    ((exec L book call w).book.topId = book.topId ∧
        ∀ e ∈ (exec L book call w).book.contactsById, e ∈ book.contactsById) ∨
      ((exec L book call w).book.topId = wrapInt (book.topId + 1) ∧
        ∀ e ∈ (exec L book call w).book.contactsById,
          e.1 = wrapInt (book.topId + 1) ∨ e ∈ book.contactsById) := by
  cases call with
  | AddContact c =>
    simp only [exec]
    cases hv : validate c with
    | some e => rw [AddContact_invalid L book c w e hv]; exact Or.inl ⟨rfl, fun _ h => h⟩
    | none =>
      cases hu : mapGet book.contactsByUnique (uniqueKey c) with
      | some p => rw [AddContact_exists L book c w p hv hu]; exact Or.inl ⟨rfl, fun _ h => h⟩
      | none =>
        rw [AddContact_pass L book c w hv hu]
        refine Or.inr ⟨rfl, fun e he => ?_⟩
        rcases mem_mapSet _ _ _ e he with he | he
        · exact Or.inl (by rw [he])
        · exact Or.inr he
  | UpdateContact id c =>
    simp only [exec]
    obtain ⟨_, e2, e3, _⟩ := UpdateContact_id L book id c w
    exact Or.inl ⟨e2, fun e he => e3 ▸ he⟩
  | DeleteContact id =>
    simp only [exec]
    obtain ⟨_, e2, _, e4⟩ := DeleteContact_id L book id w
    exact Or.inl ⟨e2, e4⟩

theorem Top_exec {β : Type} (L : GoLib β) (book : BookImpl) (call : Call) (w : Option Err)
    (n : Int) (hn : n + 1 < 2 ^ 63) (h : Top n book) :
    Top (n + 1) (exec L book call w).book := by
  obtain ⟨h0, h1, h2⟩ := h
  have hw : wrapInt (book.topId + 1) = book.topId + 1 :=
    wrapInt_of_small _ (by norm_num; omega) (by norm_num at hn ⊢; omega)
  rcases exec_topId L book call w with ⟨e1, e2⟩ | ⟨e1, e2⟩
  · refine ⟨by rw [e1]; exact h0, by rw [e1]; omega, fun e he => ?_⟩
    rw [e1]
    exact h2 e (e2 e he)
  · rw [hw] at e1 e2
    refine ⟨by rw [e1]; omega, by rw [e1]; omega, fun e he => ?_⟩
    rw [e1]
    rcases e2 e he with h | h
    · omega
    · have := h2 e h
      omega

theorem Top_run {β : Type} (L : GoLib β) (tr : List (Call × Option Err)) (book : BookImpl)
    (n : Int) (h : Top n book) (hn : n + tr.length < 2 ^ 63) :
    Top (n + tr.length) (run L book tr) := by
  induction tr generalizing book n with
  | nil => simpa [run] using h
  | cons x tr ih =>
    obtain ⟨call, w⟩ := x
    simp only [List.length_cons, Nat.cast_add, Nat.cast_one] at hn ⊢
    have := ih (exec L book call w).book (n + 1)
      (Top_exec L book call w n (by omega) h) (by omega)
    have e : n + (↑tr.length + 1) = n + 1 + ↑tr.length := by ring
    rw [e]
    exact this

theorem Top_loadLoop (cs : List Contact) (book : BookImpl) (n : Int) (h : Top n book)
    (hcs : ∀ c ∈ cs, c.Id ≤ n) :
    ∃ book', loadLoop book (cs.map some) = some book' ∧ Top n book' := by
  induction cs generalizing book with
  | nil => exact ⟨book, rfl, h⟩
  | cons c cs ih =>
    obtain ⟨h0, h1, h2⟩ := h
    have hc := hcs c (List.mem_cons_self _ _)
    have hT : Top n
        { topId := if book.topId < c.Id then c.Id else book.topId
          heap := book.heap ++ [c]
          contactsById := mapSet book.contactsById c.Id book.heap.length
          contactsByUnique := mapSet book.contactsByUnique (uniqueKey c) book.heap.length } := by
      by_cases hlt : book.topId < c.Id
      · simp only [Top, hlt, if_true]
        refine ⟨by omega, hc, fun e he => ?_⟩
        rcases mem_mapSet _ _ _ e he with he | he
        · rw [he]
        · have := h2 e he; omega
      · simp only [Top, hlt, if_false]
        refine ⟨h0, h1, fun e he => ?_⟩
        rcases mem_mapSet _ _ _ e he with he | he
        · rw [he]; simp only; omega
        · exact h2 e he
    obtain ⟨book', e1, e2⟩ := ih _ hT (fun d hd => hcs d (List.mem_cons_of_mem _ hd))
    exact ⟨book', by simpa [loadLoop] using e1, e2⟩

/-- C11, as stated, fails. New on a snapshot whose only record has the id 2^63 - 1 succeeds
with topId 2^63 - 1; AddContact of Bob Lee then succeeds, the increment wraps, topId and
the new id are -2^63, and the record 2^63 - 1 is still in contactsById, above topId. -/
theorem topId_wraps_below_stored_id :
    (New losslessLib (.ok maxIdSnapshot)).map
        (fun r => (r.1, r.2.topId, r.2.contactsById.map Prod.fst)) =
        some (none, 9223372036854775807, [9223372036854775807]) ∧
      (New losslessLib (.ok maxIdSnapshot)).map
        (fun r => ((AddContact losslessLib r.2 bobLee none).err,
          (AddContact losslessLib r.2 bobLee none).id,
          (AddContact losslessLib r.2 bobLee none).book.topId,
          (AddContact losslessLib r.2 bobLee none).book.contactsById.map Prod.fst)) =
        some (none, some (-9223372036854775808), -9223372036854775808,
          [9223372036854775807, -9223372036854775808]) := by
  decide

/-- C11, amended. When the snapshot decodes to records without a nil element, New succeeds
and topId is at least every key of contactsById; and after any sequence of calls of
AddContact, UpdateContact and DeleteContact, whatever the store answers, topId is still at
least every key of contactsById, provided the number of calls is below 2^63 and every id of
the snapshot plus the number of calls is below 2^63 (the increment does not wrap). -/
theorem topId_bounds_ids {β : Type} (L : GoLib β) (b : β) (cs : List Contact)
    (tr : List (Call × Option Err))
    (hdec : L.Unmarshal b = .ok (cs.map some))
    (hlen : (tr.length : Int) < 2 ^ 63)
    (hids : ∀ c ∈ cs, c.Id + tr.length < 2 ^ 63) :
    ∃ book, New L (.ok b) = some (none, book) ∧
      (∀ e ∈ book.contactsById, e.1 ≤ book.topId) ∧
      ∀ e ∈ (run L book tr).contactsById, e.1 ≤ (run L book tr).topId := by
  have hzero : ∀ n : Int, 0 ≤ n → Top n BookImpl.zero := by
    intro n hn
    exact ⟨le_refl _, hn, fun e he => by simp [BookImpl.zero] at he⟩
  by_cases hb : L.len (L.TrimSpace b) = 0
  · refine ⟨BookImpl.zero, New_blank L b hb, (hzero 0 (le_refl _)).2.2, ?_⟩
    have := Top_run L tr BookImpl.zero 0 (hzero 0 (le_refl _)) (by omega)
    exact this.2.2
  · obtain ⟨m, hm0, hm1, hm2⟩ : ∃ m : Int, 0 ≤ m ∧ (∀ c ∈ cs, c.Id ≤ m) ∧
        m + tr.length < 2 ^ 63 := by
      obtain ⟨t1, t2, t3⟩ := topId_foldl cs 0
      refine ⟨_, t1, t2, ?_⟩
      rcases t3 with t3 | ⟨c, hc, t3⟩
      · rw [t3]; omega
      · rw [← t3]; exact hids c hc
    obtain ⟨book, e1, e2⟩ := Top_loadLoop cs BookImpl.zero m (hzero m hm0) hm1
    refine ⟨book, ?_, e2.2.2, ?_⟩
    · simp [New, load, hb, hdec, e1]
    · exact (Top_run L tr book m e2 hm2).2.2

theorem topId_bounds_ids_witness :
    losslessLib.Unmarshal (some (shuffledRecords.map some)) = .ok (shuffledRecords.map some) ∧
      (addAddDelete.length : Int) < 2 ^ 63 ∧
      (∀ c ∈ shuffledRecords, c.Id + addAddDelete.length < 2 ^ 63) ∧
      ∃ book, New losslessLib (.ok (some (shuffledRecords.map some))) = some (none, book) ∧
        (∀ e ∈ book.contactsById, e.1 ≤ book.topId) ∧
        ∀ e ∈ (run losslessLib book addAddDelete).contactsById,
          e.1 ≤ (run losslessLib book addAddDelete).topId :=
  ⟨rfl, by decide, by decide,
    topId_bounds_ids losslessLib (some (shuffledRecords.map some)) shuffledRecords addAddDelete
      rfl (by decide) (by decide)⟩

/-! ## The effect of the three operations (C12 to C15) -/

theorem save_ok {β : Type} (L : GoLib β) (book : BookImpl) (w : Option Err) (b : β)
    (h : L.Marshal book.contacts = .ok b) : save L book w = (w, some b) := by
  simp only [save, h]

theorem save_error {β : Type} (L : GoLib β) (book : BookImpl) (w : Option Err) (e : Err)
    (h : L.Marshal book.contacts = .error e) : save L book w = (some e, none) := by
  simp only [save, h]

theorem save_cases {β : Type} (L : GoLib β) (book : BookImpl) :
    (∃ e, ∀ w, save L book w = (some e, none)) ∨ (∃ b, ∀ w, save L book w = (w, some b)) := by
  cases h : L.Marshal book.contacts with
  | error e => exact Or.inl ⟨e, fun w => save_error L book w e h⟩
  | ok b => exact Or.inr ⟨b, fun w => save_ok L book w b h⟩

theorem UpdateContact_pass {β : Type} (L : GoLib β) (book : BookImpl) (id : Int)
    (contact : Contact) (w : Option Err) (existing : Ptr)
    (hg : mapGet book.contactsById id = some existing) (hv : validate contact = none) :
    UpdateContact L book id contact w =
      { err := (save L
            { topId := book.topId
              heap := book.heap.set existing
                { Id := (deref book.heap existing).Id
                  FirstName := contact.FirstName
                  LastName := contact.LastName
                  TelephoneNumbers := contact.TelephoneNumbers }
              contactsById := book.contactsById
              contactsByUnique := book.contactsByUnique } w).1
        book :=
            { topId := book.topId
              heap := book.heap.set existing
                { Id := (deref book.heap existing).Id
                  FirstName := contact.FirstName
                  LastName := contact.LastName
                  TelephoneNumbers := contact.TelephoneNumbers }
              contactsById := book.contactsById
              contactsByUnique := book.contactsByUnique }
        written := (save L
            { topId := book.topId
              heap := book.heap.set existing
                { Id := (deref book.heap existing).Id
                  FirstName := contact.FirstName
                  LastName := contact.LastName
                  TelephoneNumbers := contact.TelephoneNumbers }
              contactsById := book.contactsById
              contactsByUnique := book.contactsByUnique } w).2
        id := none } := by
  simp only [UpdateContact, hg, hv]

theorem DeleteContact_pass {β : Type} (L : GoLib β) (book : BookImpl) (id : Int)
    (w : Option Err) (existing : Ptr) (hg : mapGet book.contactsById id = some existing) :
    DeleteContact L book id w =
      { err := (save L
            { topId := book.topId
              heap := book.heap
              contactsById := mapDelete book.contactsById (deref book.heap existing).Id
              contactsByUnique :=
                mapDelete book.contactsByUnique (uniqueKey (deref book.heap existing)) } w).1
        book :=
            { topId := book.topId
              heap := book.heap
              contactsById := mapDelete book.contactsById (deref book.heap existing).Id
              contactsByUnique :=
                mapDelete book.contactsByUnique (uniqueKey (deref book.heap existing)) }
        written := (save L
            { topId := book.topId
              heap := book.heap
              contactsById := mapDelete book.contactsById (deref book.heap existing).Id
              contactsByUnique :=
                mapDelete book.contactsByUnique (uniqueKey (deref book.heap existing)) } w).2
        id := none } := by
  simp only [DeleteContact, hg]

/-- A call either never reaches `store.Write` and has one outcome whatever the store would
answer, or it calls `store.Write` and returns its answer with one and the same book. -/
theorem exec_write_or_not {β : Type} (L : GoLib β) (book : BookImpl) (call : Call) :
    (∃ e0 book1 i, ∀ w, exec L book call w =
        { err := some e0, book := book1, written := none, id := i }) ∨
      (∃ b book1 i, ∀ w, exec L book call w =
        { err := w, book := book1, written := some b, id := i }) := by
  cases call with
  | AddContact c =>
    simp only [exec]
    cases hv : validate c with
    | some e => exact Or.inl ⟨e, book, none, fun w => AddContact_invalid L book c w e hv⟩
    | none =>
      cases hu : mapGet book.contactsByUnique (uniqueKey c) with
      | some p => exact Or.inl ⟨_, book, none, fun w => AddContact_exists L book c w p hv hu⟩
      | none =>
        rcases save_cases L
          { topId := wrapInt (book.topId + 1)
            heap := book.heap ++ [{ c with Id := wrapInt (book.topId + 1) }]
            contactsById := mapSet book.contactsById (wrapInt (book.topId + 1)) book.heap.length
            contactsByUnique :=
              mapSet book.contactsByUnique (uniqueKey c) book.heap.length } with ⟨e, he⟩ | ⟨b, hb⟩
        · exact Or.inl ⟨e, _, _, fun w => by rw [AddContact_pass L book c w hv hu, he w]⟩
        · exact Or.inr ⟨b, _, _, fun w => by rw [AddContact_pass L book c w hv hu, hb w]⟩
  | UpdateContact id c =>
    simp only [exec]
    cases hg : mapGet book.contactsById id with
    | none =>
      exact Or.inl ⟨Err.ErrContactMissing id, book, none, fun w => by
        simp only [UpdateContact, hg]⟩
    | some existing =>
      cases hv : validate c with
      | some e => exact Or.inl ⟨e, book, none, fun w => by simp only [UpdateContact, hg, hv]⟩
      | none =>
        rcases save_cases L
          { topId := book.topId
            heap := book.heap.set existing
              { Id := (deref book.heap existing).Id
                FirstName := c.FirstName
                LastName := c.LastName
                TelephoneNumbers := c.TelephoneNumbers }
            contactsById := book.contactsById
            contactsByUnique := book.contactsByUnique } with ⟨e, he⟩ | ⟨b, hb⟩
        · exact Or.inl ⟨e, _, none, fun w => by
            rw [UpdateContact_pass L book id c w existing hg hv, he w]⟩
        · exact Or.inr ⟨b, _, none, fun w => by
            rw [UpdateContact_pass L book id c w existing hg hv, hb w]⟩
  | DeleteContact id =>
    simp only [exec]
    cases hg : mapGet book.contactsById id with
    | none =>
      exact Or.inl ⟨Err.ErrContactMissing id, book, none, fun w => by
        simp only [DeleteContact, hg]⟩
    | some existing =>
      rcases save_cases L
        { topId := book.topId
          heap := book.heap
          contactsById := mapDelete book.contactsById (deref book.heap existing).Id
          contactsByUnique :=
            mapDelete book.contactsByUnique (uniqueKey (deref book.heap existing)) } with
        ⟨e, he⟩ | ⟨b, hb⟩
      · exact Or.inl ⟨e, _, none, fun w => by
          rw [DeleteContact_pass L book id w existing hg, he w]⟩
      · exact Or.inr ⟨b, _, none, fun w => by
          rw [DeleteContact_pass L book id w existing hg, hb w]⟩

/-- C12. No rollback on a failed write: when a call of AddContact, UpdateContact or
DeleteContact reaches `store.Write` (lookup and validation have passed) and the store
answers the error `e`, the call returns `e`, and the book (topId, both maps, the contacts)
and the bytes handed to the store are those of the same call with a successful write,
which returns no error. -/
theorem no_rollback_on_write_error {β : Type} (L : GoLib β) (book : BookImpl) (call : Call)
    (e : Err) (b : β) (hw : (exec L book call (some e)).written = some b) :
    (exec L book call (some e)).err = some e ∧
      (exec L book call none).err = none ∧
      (exec L book call (some e)).book = (exec L book call none).book ∧
      (exec L book call none).written = some b ∧
      (exec L book call (some e)).id = (exec L book call none).id := by
  rcases exec_write_or_not L book call with ⟨e0, book1, i, h⟩ | ⟨b1, book1, i, h⟩
  · rw [h (some e)] at hw
    simp at hw
  · rw [h (some e)] at hw ⊢
    rw [h none]
    simp only [Option.some.injEq] at hw
    exact ⟨rfl, rfl, rfl, by rw [hw], rfl⟩

theorem no_rollback_on_write_error_witness :
    (exec losslessLib annBook (.AddContact bobLee) (some (Err.other "disk full"))).written =
        some (some
          [some { Id := 1, FirstName := "Ann", LastName := "Lee", TelephoneNumbers := ["123"] },
           some { Id := 2, FirstName := "Bob", LastName := "Lee", TelephoneNumbers := ["456"] }]) ∧
      (exec losslessLib annBook (.AddContact bobLee) (some (Err.other "disk full"))).err =
        some (Err.other "disk full") ∧
      (exec losslessLib annBook (.AddContact bobLee) none).err = none ∧
      (exec losslessLib annBook (.AddContact bobLee) (some (Err.other "disk full"))).book =
        (exec losslessLib annBook (.AddContact bobLee) none).book ∧
      (exec losslessLib annBook (.AddContact bobLee) none).written =
        some (some
          [some { Id := 1, FirstName := "Ann", LastName := "Lee", TelephoneNumbers := ["123"] },
           some { Id := 2, FirstName := "Bob", LastName := "Lee", TelephoneNumbers := ["456"] }]) ∧
      (exec losslessLib annBook (.AddContact bobLee) (some (Err.other "disk full"))).id =
        (exec losslessLib annBook (.AddContact bobLee) none).id :=
  ⟨by decide,
    no_rollback_on_write_error losslessLib annBook (.AddContact bobLee) (Err.other "disk full")
      (some
        [some { Id := 1, FirstName := "Ann", LastName := "Lee", TelephoneNumbers := ["123"] },
         some { Id := 2, FirstName := "Bob", LastName := "Lee", TelephoneNumbers := ["456"] }])
      (by decide)⟩

theorem mapGet_some_of_mem_keys {κ ν : Type} [DecidableEq κ] (m : List (κ × ν)) (k : κ)
    (h : k ∈ m.map Prod.fst) : ∃ v, mapGet m k = some v := by
  induction m with
  | nil => simp at h
  | cons x m ih =>
    obtain ⟨a, b⟩ := x
    by_cases hk : a = k
    · exact ⟨b, by simp [mapGet, hk]⟩
    · simp only [List.map_cons, List.mem_cons] at h
      rcases h with h | h
      · exact absurd h.symm hk
      · obtain ⟨v, hv⟩ := ih h
        exact ⟨v, by simp [mapGet, hk, hv]⟩

theorem contactAt_append (book : BookImpl) (h : book.Inv) (c : Contact) (k : Int) :
    (mapGet book.contactsById k).map (deref (book.heap ++ [c])) = book.contactAt k := by
  simp only [BookImpl.contactAt]
  cases hg : mapGet book.contactsById k with
  | none => rfl
  | some p =>
    have := (h.1 (k, p) (mapGet_mem _ _ _ hg)).1
    simp [deref_append_lt _ _ _ this]

theorem mapSet_of_not_mem {κ ν : Type} [DecidableEq κ] (m : List (κ × ν)) (k : κ) (v : ν)
    (h : k ∉ m.map Prod.fst) : mapSet m k v = m ++ [(k, v)] := by
  induction m with
  | nil => rfl
  | cons x m ih =>
    obtain ⟨a, b⟩ := x
    simp only [List.map_cons, List.mem_cons, not_or] at h
    have hk : ¬ a = k := fun e => h.1 e.symm
    simp only [mapSet, hk, if_false, List.cons_append, ih h.2]

theorem contacts_append (book : BookImpl) (h : book.Inv) (c : Contact) :
    book.contactsById.map (fun e => deref (book.heap ++ [c]) e.2) = book.contacts := by
  simp only [BookImpl.contacts]
  exact List.map_congr_left (fun e he => deref_append_lt _ _ _ (h.1 e he).1)

/-- C13, as stated, fails. New on a snapshot holding the ids 2^63 - 1 (Ann Lee) and -2^63
(Bob Lee) succeeds with topId 2^63 - 1 and a well-formed book; AddContact of Carl Ray, a
valid contact with a new key, then succeeds, but topId becomes -2^63 and not the old topId
plus one, the contact stored under -2^63 is replaced by the new one, and the bytes handed
to `store.Write` no longer hold Bob Lee. -/
theorem AddContact_wraps_and_overwrites :
    (New losslessLib (.ok (some (extremeRecords.map some)))).map
        (fun r => (r.1, r.2.topId, decide r.2.Inv)) =
        some (none, 9223372036854775807, true) ∧
      (New losslessLib (.ok (some (extremeRecords.map some)))).map
        (fun r => (r.2.contactAt (-9223372036854775808),
          mapGet r.2.contactsByUnique (uniqueKey carlRay))) =
        some (some { Id := -9223372036854775808, FirstName := "Bob", LastName := "Lee",
                     TelephoneNumbers := ["456"] }, none) ∧
      validate carlRay = none ∧
      (New losslessLib (.ok (some (extremeRecords.map some)))).map
        (fun r => ((AddContact losslessLib r.2 carlRay none).err,
          (AddContact losslessLib r.2 carlRay none).id,
          (AddContact losslessLib r.2 carlRay none).book.topId)) =
        some (none, some (-9223372036854775808), -9223372036854775808) ∧
      (New losslessLib (.ok (some (extremeRecords.map some)))).map
        (fun r => (AddContact losslessLib r.2 carlRay none).book.contactAt
          (-9223372036854775808)) =
        some (some { Id := -9223372036854775808, FirstName := "Carl", LastName := "Ray",
                     TelephoneNumbers := [] }) ∧
      (New losslessLib (.ok (some (extremeRecords.map some)))).map
        (fun r => (AddContact losslessLib r.2 carlRay none).written) =
        some (some (some
          [some { Id := 9223372036854775807, FirstName := "Ann", LastName := "Lee",
                  TelephoneNumbers := ["123"] },
           some { Id := -9223372036854775808, FirstName := "Carl", LastName := "Ray",
                  TelephoneNumbers := [] }])) := by
  decide

/-- C13, amended. On a well-formed book whose topId is a Go `int` below the largest one and
such that topId + 1 is not a key of contactsById, for a contact whose first and last names
are both non-empty and whose uniqueKey is not a key of contactsByUnique, with
`json.Marshal` and `store.Write` succeeding: AddContact returns no error; topId is the old
topId + 1; the contact gets the new topId as its Id; contactsById is the old map followed
by the entry of the new topId, contactsByUnique the old map followed by the entry of
uniqueKey of the contact, both pointing to the new object; every contact stored before is
still stored unchanged under its id; and the bytes handed to `store.Write` are the marshalled
old contacts followed by the new one. -/
theorem AddContact_effect {β : Type} (L : GoLib β) (hm : L.MarshalOk) (book : BookImpl)
    (c : Contact) (hInv : book.Inv)
    (hlo : -(2 : Int) ^ 63 ≤ book.topId) (hhi : book.topId < 2 ^ 63 - 1)
    (hnew : book.topId + 1 ∉ book.contactsById.map Prod.fst)
    (hf : c.FirstName ≠ "") (hl : c.LastName ≠ "")
    (hu : uniqueKey c ∉ book.contactsByUnique.map Prod.fst) :
    (AddContact L book c none).err = none ∧
      (AddContact L book c none).book.topId = book.topId + 1 ∧
      (AddContact L book c none).id = some (book.topId + 1) ∧
      (AddContact L book c none).book.heap = book.heap ++ [{ c with Id := book.topId + 1 }] ∧
      (AddContact L book c none).book.contactsById =
        book.contactsById ++ [(book.topId + 1, book.heap.length)] ∧
      (AddContact L book c none).book.contactsByUnique =
        book.contactsByUnique ++ [(uniqueKey c, book.heap.length)] ∧
      (AddContact L book c none).book.contactAt (book.topId + 1) =
        some { c with Id := book.topId + 1 } ∧
      (AddContact L book c none).book.uniqueAt (uniqueKey c) =
        some { c with Id := book.topId + 1 } ∧
      (∀ k d, book.contactAt k = some d →
        (AddContact L book c none).book.contactAt k = some d) ∧
      (∀ k, k ≠ book.topId + 1 →
        (AddContact L book c none).book.contactAt k = book.contactAt k) ∧
      (AddContact L book c none).book.contacts =
        book.contacts ++ [{ c with Id := book.topId + 1 }] ∧
      ∃ b, (AddContact L book c none).written = some b ∧
        L.Marshal (book.contacts ++ [{ c with Id := book.topId + 1 }]) = .ok b := by
  have hv : validate c = none := by simp [validate, hf, hl]
  have hu' := mapGet_none_of_not_mem _ _ hu
  have hnew' := mapGet_none_of_not_mem _ _ hnew
  have hw : wrapInt (book.topId + 1) = book.topId + 1 :=
    wrapInt_of_small _ (by omega) (by omega)
  have hcs : BookImpl.contacts
      { topId := book.topId + 1
        heap := book.heap ++ [{ c with Id := book.topId + 1 }]
        contactsById := mapSet book.contactsById (book.topId + 1) book.heap.length
        contactsByUnique := mapSet book.contactsByUnique (uniqueKey c) book.heap.length } =
      book.contacts ++ [{ c with Id := book.topId + 1 }] := by
    simp only [BookImpl.contacts, mapSet_of_not_mem _ _ _ hnew, List.map_append,
      List.map_cons, List.map_nil, deref_append_length]
    rw [contacts_append book hInv]
    rfl
  obtain ⟨b, hb⟩ := hm (book.contacts ++ [{ c with Id := book.topId + 1 }])
  rw [AddContact_pass L book c none hv hu', hw, save_ok L _ none b (hcs ▸ hb)]
  have hat : ∀ k, k ≠ book.topId + 1 →
      BookImpl.contactAt
        { topId := book.topId + 1
          heap := book.heap ++ [{ c with Id := book.topId + 1 }]
          contactsById := mapSet book.contactsById (book.topId + 1) book.heap.length
          contactsByUnique := mapSet book.contactsByUnique (uniqueKey c) book.heap.length } k =
        book.contactAt k := by
    intro k hk
    have hk' : ¬ book.topId + 1 = k := fun e => hk e.symm
    simp only [BookImpl.contactAt, mapGet_mapSet, hk', if_false]
    exact contactAt_append book hInv _ k
  refine ⟨rfl, rfl, rfl, rfl, mapSet_of_not_mem _ _ _ hnew, mapSet_of_not_mem _ _ _ hu,
    ?_, ?_, ?_, hat, hcs, b, rfl, hb⟩
  · simp [BookImpl.contactAt, mapGet_mapSet, deref_append_length]
  · simp [BookImpl.uniqueAt, mapGet_mapSet, deref_append_length]
  · intro k d hd
    have hk : k ≠ book.topId + 1 := by
      intro e
      rw [e, BookImpl.contactAt, hnew'] at hd
      simp at hd
    rw [hat k hk]
    exact hd

theorem AddContact_effect_witness :
    losslessLib.MarshalOk ∧ shuffledBook.Inv ∧ -(2 : Int) ^ 63 ≤ shuffledBook.topId ∧
      shuffledBook.topId < 2 ^ 63 - 1 ∧
      shuffledBook.topId + 1 ∉ shuffledBook.contactsById.map Prod.fst ∧
      doraLee.FirstName ≠ "" ∧ doraLee.LastName ≠ "" ∧
      uniqueKey doraLee ∉ shuffledBook.contactsByUnique.map Prod.fst ∧
      (AddContact losslessLib shuffledBook doraLee none).err = none ∧
      (AddContact losslessLib shuffledBook doraLee none).book.topId = shuffledBook.topId + 1 ∧
      (AddContact losslessLib shuffledBook doraLee none).id = some (shuffledBook.topId + 1) ∧
      (AddContact losslessLib shuffledBook doraLee none).book.heap =
        shuffledBook.heap ++ [{ doraLee with Id := shuffledBook.topId + 1 }] ∧
      (AddContact losslessLib shuffledBook doraLee none).book.contactsById =
        shuffledBook.contactsById ++ [(shuffledBook.topId + 1, shuffledBook.heap.length)] ∧
      (AddContact losslessLib shuffledBook doraLee none).book.contactsByUnique =
        shuffledBook.contactsByUnique ++ [(uniqueKey doraLee, shuffledBook.heap.length)] ∧
      (AddContact losslessLib shuffledBook doraLee none).book.contactAt
          (shuffledBook.topId + 1) =
        some { doraLee with Id := shuffledBook.topId + 1 } ∧
      (AddContact losslessLib shuffledBook doraLee none).book.uniqueAt (uniqueKey doraLee) =
        some { doraLee with Id := shuffledBook.topId + 1 } ∧
      (∀ k d, shuffledBook.contactAt k = some d →
        (AddContact losslessLib shuffledBook doraLee none).book.contactAt k = some d) ∧
      (∀ k, k ≠ shuffledBook.topId + 1 →
        (AddContact losslessLib shuffledBook doraLee none).book.contactAt k =
          shuffledBook.contactAt k) ∧
      (AddContact losslessLib shuffledBook doraLee none).book.contacts =
        shuffledBook.contacts ++ [{ doraLee with Id := shuffledBook.topId + 1 }] ∧
      ∃ b, (AddContact losslessLib shuffledBook doraLee none).written = some b ∧
        losslessLib.Marshal
          (shuffledBook.contacts ++ [{ doraLee with Id := shuffledBook.topId + 1 }]) = .ok b :=
  ⟨fun _ => ⟨_, rfl⟩, by decide, by decide, by decide, by decide, by decide, by decide,
    by decide,
    AddContact_effect losslessLib (fun _ => ⟨_, rfl⟩) shuffledBook doraLee (by decide)
      (by decide) (by decide) (by decide) (by decide) (by decide) (by decide)⟩

theorem save_no_error {β : Type} (L : GoLib β) (book : BookImpl) (w : Option Err)
    (h : (save L book w).1 = none) :
    w = none ∧ ∃ b, (save L book w).2 = some b ∧ L.Marshal book.contacts = .ok b := by
  cases hM : L.Marshal book.contacts with
  | error e => rw [save_error L book w e hM] at h; simp at h
  | ok b =>
    rw [save_ok L book w b hM] at h ⊢
    exact ⟨h, b, rfl, rfl⟩

/-- C14. On a well-formed book, for an id present in contactsById and a contact `c` that
passes `validate`, an UpdateContact that returns no error leaves under that id the contact
with the same Id and with the FirstName, LastName and TelephoneNumbers of `c`; both maps
(so their key sets: the entry of contactsByUnique stays under the old key), topId, the
contacts under all other ids and all other objects are unchanged; and the contacts of
contactsById were marshalled and handed to `store.Write`. -/
theorem UpdateContact_effect {β : Type} (L : GoLib β) (book : BookImpl) (id : Int)
    (c : Contact) (w : Option Err) (hInv : book.Inv)
    (hid : id ∈ book.contactsById.map Prod.fst) (hv : validate c = none)
    (herr : (UpdateContact L book id c w).err = none) :
    (UpdateContact L book id c w).book.contactAt id =
        some { Id := id, FirstName := c.FirstName, LastName := c.LastName,
               TelephoneNumbers := c.TelephoneNumbers } ∧
      (∀ k, k ≠ id → (UpdateContact L book id c w).book.contactAt k = book.contactAt k) ∧
      (UpdateContact L book id c w).book.contactsById = book.contactsById ∧
      (UpdateContact L book id c w).book.contactsByUnique = book.contactsByUnique ∧
      (UpdateContact L book id c w).book.topId = book.topId ∧
      (∀ q, mapGet book.contactsById id ≠ some q →
        deref (UpdateContact L book id c w).book.heap q = deref book.heap q) ∧
      ∃ b, (UpdateContact L book id c w).written = some b ∧
        L.Marshal (UpdateContact L book id c w).book.contacts = .ok b := by
  obtain ⟨p, hp⟩ := mapGet_some_of_mem_keys _ _ hid
  have hmem := mapGet_mem _ _ _ hp
  obtain ⟨hlt, hpid⟩ := hInv.1 (id, p) hmem
  simp only at hlt hpid
  rw [UpdateContact_pass L book id c w p hp hv] at herr ⊢
  obtain ⟨_, b, hb1, hb2⟩ := save_no_error L _ w herr
  refine ⟨?_, ?_, rfl, rfl, rfl, ?_, b, hb1, hb2⟩
  · simp only [BookImpl.contactAt, hp, Option.map_some', deref_set_eq _ _ _ hlt, hpid]
  · intro k hk
    simp only [BookImpl.contactAt]
    cases hg : mapGet book.contactsById k with
    | none => rfl
    | some q =>
      have hq : q ≠ p := by
        intro e
        have h1 := (hInv.1 (k, q) (mapGet_mem _ _ _ hg)).2
        simp only at h1
        rw [e, hpid] at h1
        exact hk h1.symm
      simp [deref_set_ne _ _ _ _ hq]
  · intro q hq
    have : q ≠ p := fun e => hq (e ▸ hp)
    exact deref_set_ne _ _ _ _ this

theorem UpdateContact_effect_witness :
    shuffledBook.Inv ∧ (1 : Int) ∈ shuffledBook.contactsById.map Prod.fst ∧
      validate carlRay = none ∧
      (UpdateContact losslessLib shuffledBook 1 carlRay none).err = none ∧
      (UpdateContact losslessLib shuffledBook 1 carlRay none).book.contactAt 1 =
        some { Id := 1, FirstName := carlRay.FirstName, LastName := carlRay.LastName,
               TelephoneNumbers := carlRay.TelephoneNumbers } ∧
      (∀ k, k ≠ 1 → (UpdateContact losslessLib shuffledBook 1 carlRay none).book.contactAt k =
        shuffledBook.contactAt k) ∧
      (UpdateContact losslessLib shuffledBook 1 carlRay none).book.contactsById =
        shuffledBook.contactsById ∧
      (UpdateContact losslessLib shuffledBook 1 carlRay none).book.contactsByUnique =
        shuffledBook.contactsByUnique ∧
      (UpdateContact losslessLib shuffledBook 1 carlRay none).book.topId = shuffledBook.topId ∧
      (∀ q, mapGet shuffledBook.contactsById 1 ≠ some q →
        deref (UpdateContact losslessLib shuffledBook 1 carlRay none).book.heap q =
          deref shuffledBook.heap q) ∧
      ∃ b, (UpdateContact losslessLib shuffledBook 1 carlRay none).written = some b ∧
        losslessLib.Marshal (UpdateContact losslessLib shuffledBook 1 carlRay none).book.contacts =
          .ok b :=
  ⟨by decide, by decide, by decide, by decide,
    UpdateContact_effect losslessLib shuffledBook 1 carlRay none
      (by decide) (by decide) (by decide) (by decide)⟩

/-- C15. On a well-formed book, for an id present in contactsById, a DeleteContact that
returns no error removes the id from contactsById and removes from contactsByUnique the
entry under uniqueKey of the current names of the contact stored under the id; the other
entries of both maps, the stored objects and topId are unchanged; and the contacts
marshalled and handed to `store.Write` hold no record with that id. -/
theorem DeleteContact_effect {β : Type} (L : GoLib β) (book : BookImpl) (id : Int)
    (w : Option Err) (hInv : book.Inv) (hid : id ∈ book.contactsById.map Prod.fst)
    (herr : (DeleteContact L book id w).err = none) :
    ∃ existing, book.contactAt id = some existing ∧
      (∀ k, mapGet (DeleteContact L book id w).book.contactsById k =
        if id = k then none else mapGet book.contactsById k) ∧
      (∀ k, mapGet (DeleteContact L book id w).book.contactsByUnique k =
        if uniqueKey existing = k then none else mapGet book.contactsByUnique k) ∧
      (DeleteContact L book id w).book.heap = book.heap ∧
      (∀ k, k ≠ id → (DeleteContact L book id w).book.contactAt k = book.contactAt k) ∧
      (DeleteContact L book id w).book.contactAt id = none ∧
      (DeleteContact L book id w).book.topId = book.topId ∧
      ∃ b, (DeleteContact L book id w).written = some b ∧
        L.Marshal (DeleteContact L book id w).book.contacts = .ok b ∧
        ∀ c ∈ (DeleteContact L book id w).book.contacts, c.Id ≠ id := by
  obtain ⟨p, hp⟩ := mapGet_some_of_mem_keys _ _ hid
  have hmem := mapGet_mem _ _ _ hp
  obtain ⟨hlt, hpid⟩ := hInv.1 (id, p) hmem
  simp only at hlt hpid
  have hInv' := Inv_DeleteContact L book id w hInv
  rw [DeleteContact_pass L book id w p hp] at herr hInv' ⊢
  rw [hpid] at herr hInv' ⊢
  obtain ⟨_, b, hb1, hb2⟩ := save_no_error L _ w herr
  refine ⟨deref book.heap p, by simp [BookImpl.contactAt, hp], ?_, ?_, rfl, ?_, ?_, rfl,
    b, hb1, hb2, ?_⟩
  · intro k
    exact mapGet_mapDelete _ _ _
  · intro k
    exact mapGet_mapDelete _ _ _
  · intro k hk
    have : ¬ id = k := fun e => hk e.symm
    simp only [BookImpl.contactAt, mapGet_mapDelete, this, if_false]
  · simp only [BookImpl.contactAt, mapGet_mapDelete, if_true, Option.map_none']
  · intro c hc
    obtain ⟨e, he, rfl⟩ := List.mem_map.1 hc
    simp only at he ⊢
    rw [(hInv'.1 e he).2]
    exact (mem_mapDelete _ _ e he).2

theorem DeleteContact_effect_witness :
    shuffledBook.Inv ∧ (1 : Int) ∈ shuffledBook.contactsById.map Prod.fst ∧
      (DeleteContact losslessLib shuffledBook 1 none).err = none ∧
      ∃ existing, shuffledBook.contactAt 1 = some existing ∧
        (∀ k, mapGet (DeleteContact losslessLib shuffledBook 1 none).book.contactsById k =
          if (1 : Int) = k then none else mapGet shuffledBook.contactsById k) ∧
        (∀ k, mapGet (DeleteContact losslessLib shuffledBook 1 none).book.contactsByUnique k =
          if uniqueKey existing = k then none else mapGet shuffledBook.contactsByUnique k) ∧
        (DeleteContact losslessLib shuffledBook 1 none).book.heap = shuffledBook.heap ∧
        (∀ k, k ≠ 1 → (DeleteContact losslessLib shuffledBook 1 none).book.contactAt k =
          shuffledBook.contactAt k) ∧
        (DeleteContact losslessLib shuffledBook 1 none).book.contactAt 1 = none ∧
        (DeleteContact losslessLib shuffledBook 1 none).book.topId = shuffledBook.topId ∧
        ∃ b, (DeleteContact losslessLib shuffledBook 1 none).written = some b ∧
          losslessLib.Marshal (DeleteContact losslessLib shuffledBook 1 none).book.contacts =
            .ok b ∧
          ∀ c ∈ (DeleteContact losslessLib shuffledBook 1 none).book.contacts, c.Id ≠ 1 :=
  ⟨by decide, by decide, by decide,
    DeleteContact_effect losslessLib shuffledBook 1 none (by decide) (by decide) (by decide)⟩

/-! ## The empty repository and the acceptance scenario (C16, C17) -/

theorem exec_MarshalOk {β : Type} (L : GoLib β) (hm : L.MarshalOk) (book : BookImpl)
    (call : Call) :
    (exec L book call none).err = (exec losslessLib book call none).err ∧
      (exec L book call none).book = (exec losslessLib book call none).book ∧
      (exec L book call none).id = (exec losslessLib book call none).id := by
  have hL : ∀ bk : BookImpl, save L bk none = (none, (save L bk none).2) := by
    intro bk
    obtain ⟨b, hb⟩ := hm bk.contacts
    rw [save_ok L bk none b hb]
  cases call with
  | AddContact c =>
    simp only [exec]
    cases hv : validate c with
    | some e =>
      rw [AddContact_invalid L book c none e hv, AddContact_invalid losslessLib book c none e hv]
      exact ⟨rfl, rfl, rfl⟩
    | none =>
      cases hu : mapGet book.contactsByUnique (uniqueKey c) with
      | some p =>
        rw [AddContact_exists L book c none p hv hu,
          AddContact_exists losslessLib book c none p hv hu]
        exact ⟨rfl, rfl, rfl⟩
      | none =>
        rw [AddContact_pass L book c none hv hu, AddContact_pass losslessLib book c none hv hu,
          hL]
        exact ⟨rfl, rfl, rfl⟩
  | UpdateContact id c =>
    simp only [exec]
    cases hg : mapGet book.contactsById id with
    | none => simp [UpdateContact, hg]
    | some existing =>
      cases hv : validate c with
      | some e => simp [UpdateContact, hg, hv]
      | none =>
        rw [UpdateContact_pass L book id c none existing hg hv,
          UpdateContact_pass losslessLib book id c none existing hg hv, hL]
        exact ⟨rfl, rfl, rfl⟩
  | DeleteContact id =>
    simp only [exec]
    cases hg : mapGet book.contactsById id with
    | none => simp [DeleteContact, hg]
    | some existing =>
      rw [DeleteContact_pass L book id none existing hg,
        DeleteContact_pass losslessLib book id none existing hg, hL]
      exact ⟨rfl, rfl, rfl⟩

theorem outcomes_MarshalOk {β : Type} (L : GoLib β) (hm : L.MarshalOk)
    (tr : List (Call × Option Err)) (hw : ∀ x ∈ tr, x.2 = none) (book : BookImpl) :
    (outcomes L book tr).map (fun o => (o.err, o.id)) =
      (outcomes losslessLib book tr).map (fun o => (o.err, o.id)) := by
  induction tr generalizing book with
  | nil => rfl
  | cons x tr ih =>
    obtain ⟨call, w⟩ := x
    have hx : w = none := hw (call, w) (List.mem_cons_self _ _)
    subst hx
    obtain ⟨e1, e2, e3⟩ := exec_MarshalOk L hm book call
    simp only [outcomes, List.map_cons, e1, e2, e3]
    rw [ih (fun y hy => hw y (List.mem_cons_of_mem _ hy))]

/-- C17. When `store.Read` returns without error bytes that `bytes.TrimSpace` reduces to
length 0, New returns no error and an empty book: contactsById and contactsByUnique are
empty, topId is 0 and ListContacts passes the empty slice to its callback once. This
covers the answer of `FileStore.Read` for a missing data file, the nil slice. -/
theorem New_blank_is_empty {β : Type} (L : GoLib β) (b nilBytes : β)
    (cb : List Contact → Option Err) (hb : L.len (L.TrimSpace b) = 0)
    (hnil : L.len (L.TrimSpace nilBytes) = 0) :
    ∃ book, New L (.ok b) = some (none, book) ∧
      book.contactsById = [] ∧ book.contactsByUnique = [] ∧ book.topId = 0 ∧
      (ListContacts book cb).calls = [[]] ∧
      (ListContacts book cb).err = cb [] ∧
      ∀ e, FileStore.Read nilBytes (.notExist e) = .ok nilBytes ∧
        New L (FileStore.Read nilBytes (.notExist e)) = some (none, book) :=
  ⟨BookImpl.zero, New_blank L b hb, rfl, rfl, rfl, rfl, rfl,
    fun _ => ⟨rfl, New_blank L nilBytes hnil⟩⟩

theorem New_blank_is_empty_witness :
    losslessLib.len (losslessLib.TrimSpace none) = 0 ∧
      losslessLib.len (losslessLib.TrimSpace none) = 0 ∧
      ∃ book, New losslessLib (.ok none) = some (none, book) ∧
        book.contactsById = [] ∧ book.contactsByUnique = [] ∧ book.topId = 0 ∧
        (ListContacts book (fun _ => none)).calls = [[]] ∧
        (ListContacts book (fun _ => none)).err = (fun _ => none) ([] : List Contact) ∧
        ∀ e, FileStore.Read (none : Option (List (Option Contact))) (.notExist e) = .ok none ∧
          New losslessLib (FileStore.Read none (.notExist e)) = some (none, book) :=
  ⟨rfl, rfl, New_blank_is_empty losslessLib none none (fun _ => none) rfl rfl⟩

/-- C16. Acceptance scenario on one book over a store whose data is blank and whose writes
(and `json.Marshal`) succeed: New succeeds, ListContacts passes the empty slice to its
callback; AddContact of Ann Lee with phone 123 succeeds with id 1; AddContact of Ann Lee
with phone 456 fails with ErrContactExists; DeleteContact of 1 succeeds; AddContact of Ann
Lee without phones succeeds with id 2. -/
theorem acceptance_scenario {β : Type} (L : GoLib β) (hm : L.MarshalOk) (b : β)
    (cb : List Contact → Option Err) (hb : L.len (L.TrimSpace b) = 0) :
    ∃ book, New L (.ok b) = some (none, book) ∧
      (ListContacts book cb).calls = [[]] ∧
      (outcomes L book scenario).map (fun o => (o.err, o.id)) =
        [(none, some 1), (some (Err.ErrContactExists "Ann" "Lee"), none), (none, none),
         (none, some 2)] := by
  refine ⟨BookImpl.zero, New_blank L b hb, rfl, ?_⟩
  rw [outcomes_MarshalOk L hm scenario (by decide) BookImpl.zero]
  decide

theorem acceptance_scenario_witness :
    losslessLib.MarshalOk ∧ losslessLib.len (losslessLib.TrimSpace none) = 0 ∧
      ∃ book, New losslessLib (.ok none) = some (none, book) ∧
        (ListContacts book (fun _ => none)).calls = [[]] ∧
        (outcomes losslessLib book scenario).map (fun o => (o.err, o.id)) =
          [(none, some 1), (some (Err.ErrContactExists "Ann" "Lee"), none), (none, none),
           (none, some 2)] :=
  ⟨fun _ => ⟨_, rfl⟩, rfl,
    acceptance_scenario losslessLib (fun _ => ⟨_, rfl⟩) none (fun _ => none) rfl⟩

/-! ## The stale key after a rename (C19) -/

/-- C19. From an empty book, AddContact of Ann Lee and UpdateContact of id 1 to Bob Lee
succeed; then contactsByUnique still maps the old key Ann:Lee to the renamed contact and
holds nothing under the new key Bob:Lee, and AddContact of a valid contact named Ann Lee
fails with ErrContactExists and changes nothing, although no contact of contactsById has
the first name Ann and the last name Lee. -/
theorem stale_key_blocks_old_name :
    (outcomes losslessLib BookImpl.zero
        [(.AddContact annLee, none), (.UpdateContact 1 bobLee, none)]).map (fun o => o.err) =
        [none, none] ∧
      (run losslessLib BookImpl.zero
        [(.AddContact annLee, none), (.UpdateContact 1 bobLee, none)]).uniqueAt "Ann:Lee" =
        some { Id := 1, FirstName := "Bob", LastName := "Lee", TelephoneNumbers := ["456"] } ∧
      (run losslessLib BookImpl.zero
        [(.AddContact annLee, none), (.UpdateContact 1 bobLee, none)]).uniqueAt "Bob:Lee" =
        none ∧
      validate { Id := 0, FirstName := "Ann", LastName := "Lee", TelephoneNumbers := ["789"] } =
        none ∧
      AddContact losslessLib
          (run losslessLib BookImpl.zero
            [(.AddContact annLee, none), (.UpdateContact 1 bobLee, none)])
          { Id := 0, FirstName := "Ann", LastName := "Lee", TelephoneNumbers := ["789"] } none =
        { err := some (Err.ErrContactExists "Ann" "Lee")
          book := run losslessLib BookImpl.zero
            [(.AddContact annLee, none), (.UpdateContact 1 bobLee, none)]
          written := none, id := none } ∧
      ∀ c ∈ (run losslessLib BookImpl.zero
          [(.AddContact annLee, none), (.UpdateContact 1 bobLee, none)]).contacts,
        ¬ (c.FirstName = "Ann" ∧ c.LastName = "Lee") := by
  decide

/-! ## The uniqueness key (C20) -/

theorem colon_split (l1 l2 r1 r2 : List Char) (h1 : ':' ∉ l1) (h2 : ':' ∉ l2)
    (h : l1 ++ ':' :: r1 = l2 ++ ':' :: r2) : l1 = l2 ∧ r1 = r2 := by
  induction l1 generalizing l2 with
  | nil =>
    cases l2 with
    | nil => simpa using h
    | cons y l2 =>
      simp only [List.nil_append, List.cons_append, List.cons.injEq] at h
      exact absurd (h.1 ▸ List.mem_cons_self _ _) h2
  | cons x l1 ih =>
    cases l2 with
    | nil =>
      simp only [List.nil_append, List.cons_append, List.cons.injEq] at h
      exact absurd (h.1 ▸ List.mem_cons_self _ _) h1
    | cons y l2 =>
      simp only [List.cons_append, List.cons.injEq] at h
      obtain ⟨e1, e2⟩ := ih l2 (fun hm => h1 (List.mem_cons_of_mem _ hm))
        (fun hm => h2 (List.mem_cons_of_mem _ hm)) h.2
      exact ⟨by rw [h.1, e1], e2⟩

theorem uniqueKey_data (a : Contact) :
    (uniqueKey a).data = a.FirstName.data ++ ':' :: a.LastName.data := by
  simp [uniqueKey, String.data_append]

theorem uniqueKey_inj (a b : Contact) (ha : ':' ∉ a.FirstName.data)
    (hb : ':' ∉ b.FirstName.data) (h : uniqueKey a = uniqueKey b) :
    a.FirstName = b.FirstName ∧ a.LastName = b.LastName := by
  have hd := congrArg String.data h
  rw [uniqueKey_data, uniqueKey_data] at hd
  obtain ⟨e1, e2⟩ := colon_split _ _ _ _ ha hb hd
  exact ⟨String.ext e1, String.ext e2⟩

theorem mem_heap_of_lt (heap : List Contact) (p : Ptr) (h : p < heap.length) :
    deref heap p ∈ heap := by
  simp only [deref, List.getD_eq_getElem?_getD, List.getElem?_eq_getElem h, Option.getD_some]
  exact List.getElem_mem h

theorem AddContact_keeps {β : Type} (L : GoLib β) (book : BookImpl) (c : Contact)
    (w : Option Err) (n : Nat) (hn : n + 1 < 2 ^ 63) (hInv : book.Inv) (hW : Within n book)
    (hS : book.Sync) (hN : book.NoColon) (hc : ':' ∉ c.FirstName.data) :
    (AddContact L book c w).book.Sync ∧ (AddContact L book c w).book.NoColon := by
  cases hv : validate c with
  | some e => rw [AddContact_invalid L book c w e hv]; exact ⟨hS, hN⟩
  | none =>
    cases hu : mapGet book.contactsByUnique (uniqueKey c) with
    | some p => rw [AddContact_exists L book c w p hv hu]; exact ⟨hS, hN⟩
    | none =>
      obtain ⟨h0, h1, h2⟩ := hW
      have hw : wrapInt (book.topId + 1) = book.topId + 1 :=
        wrapInt_of_small _ (by norm_num; omega) (by norm_num at hn ⊢; omega)
      rw [AddContact_pass L book c w hv hu, hw]
      constructor
      · intro e he
        simp only at he ⊢
        rcases mem_mapSet _ _ _ e he with he | he
        · subst he
          simp [deref_append_length, mapGet_mapSet, uniqueKey]
        · obtain ⟨s1, s2⟩ := hS e he
          have hmem := mapGet_mem _ _ _ s2
          have hlt := (hInv.1 _ hmem).1
          simp only at hlt
          rw [deref_append_lt _ _ _ hlt]
          refine ⟨s1, ?_⟩
          rw [mapGet_mapSet]
          have := (h2 _ hmem).2
          simp only at this
          have hne : ¬ book.topId + 1 = (deref book.heap e.2).Id := by omega
          simp only [hne, if_false]
          exact s2
      · intro d hd
        simp only [List.mem_append, List.mem_singleton] at hd
        rcases hd with hd | hd
        · exact hN d hd
        · rw [hd]; exact hc

theorem addCalls_keeps {β : Type} (L : GoLib β) (adds : List (Contact × Option Err))
    (book : BookImpl) (n : Nat) (hn : n + adds.length < 2 ^ 63) (hInv : book.Inv)
    (hW : Within n book) (hS : book.Sync) (hN : book.NoColon)
    (hc : ∀ x ∈ adds, ':' ∉ x.1.FirstName.data) :
    (run L book (addCalls adds)).Inv ∧ (run L book (addCalls adds)).Sync ∧
      (run L book (addCalls adds)).NoColon := by
  induction adds generalizing book n with
  | nil => exact ⟨hInv, hS, hN⟩
  | cons x adds ih =>
    simp only [List.length_cons] at hn
    obtain ⟨k1, k2⟩ := AddContact_keeps L book x.1 x.2 n (by omega) hInv hW hS hN
      (hc x (List.mem_cons_self _ _))
    have hW' := (Within_exec L book (.AddContact x.1) x.2 n (by omega) hW).1
    exact ih (AddContact L book x.1 x.2).book (n + 1) (by omega)
      (Inv_AddContact L book x.1 x.2 hInv) hW' k1 k2
      (fun y hy => hc y (List.mem_cons_of_mem _ hy))

/-- C20, as stated, fails. The contacts with the names (a:b, c) and (a, b:c) have the same
uniqueKey a:b:c; after AddContact of the first on an empty book, AddContact of the second,
a valid contact, fails with ErrContactExists although the only live contact has another
first and last name. -/
theorem uniqueKey_collides :
    uniqueKey { Id := 0, FirstName := "a:b", LastName := "c", TelephoneNumbers := [] } =
        uniqueKey { Id := 0, FirstName := "a", LastName := "b:c", TelephoneNumbers := [] } ∧
      validate { Id := 0, FirstName := "a", LastName := "b:c", TelephoneNumbers := [] } = none ∧
      (outcomes losslessLib BookImpl.zero
        [(.AddContact { Id := 0, FirstName := "a:b", LastName := "c", TelephoneNumbers := [] },
            none),
         (.AddContact { Id := 0, FirstName := "a", LastName := "b:c", TelephoneNumbers := [] },
            none)]).map (fun o => (o.err, o.id, o.book.contacts)) =
        [(none, some 1,
            [{ Id := 1, FirstName := "a:b", LastName := "c", TelephoneNumbers := [] }]),
         (some (Err.ErrContactExists "a" "b:c"), none,
            [{ Id := 1, FirstName := "a:b", LastName := "c", TelephoneNumbers := [] }])] := by
  decide

/-- C20, amended. For contacts whose first names hold no colon, uniqueKey(a) = uniqueKey(b)
if and only if a and b have the same first name and the same last name; consequently, in a
book built from an empty book by fewer than 2^63 - 1 AddContact calls of contacts whose
first names hold no colon, an AddContact of such a contact (with `json.Marshal` and the
write succeeding) fails with ErrContactExists only if a contact of contactsById has exactly
the same first and last name. -/
theorem uniqueKey_separates {β : Type} (L : GoLib β) (hm : L.MarshalOk) (a b c : Contact)
    (adds : List (Contact × Option Err))
    (ha : ':' ∉ a.FirstName.data) (hb : ':' ∉ b.FirstName.data)
    (hc : ':' ∉ c.FirstName.data) (hadds : ∀ x ∈ adds, ':' ∉ x.1.FirstName.data)
    (hlen : adds.length + 1 < 2 ^ 63) :
    (uniqueKey a = uniqueKey b ↔ a.FirstName = b.FirstName ∧ a.LastName = b.LastName) ∧
      ∀ f l, (AddContact L (run L BookImpl.zero (addCalls adds)) c none).err =
          some (Err.ErrContactExists f l) →
        ∃ id d, (run L BookImpl.zero (addCalls adds)).contactAt id = some d ∧
          d.FirstName = c.FirstName ∧ d.LastName = c.LastName := by
  constructor
  · constructor
    · exact uniqueKey_inj a b ha hb
    · intro h
      simp only [uniqueKey, h.1, h.2]
  · intro f l herr
    obtain ⟨kInv, kS, kN⟩ := addCalls_keeps L adds BookImpl.zero 0 (by omega) Inv_zero
      (by simp [Within, BookImpl.zero]) (by intro e he; simp [BookImpl.zero] at he)
      (by intro d hd; simp [BookImpl.zero] at hd) hadds
    cases hv : validate c with
    | some e =>
      rw [AddContact_invalid L _ c none e hv] at herr
      simp only [Option.some.injEq] at herr
      simp only [validate] at hv
      split at hv
      · simp only [Option.some.injEq] at hv
        rw [← hv] at herr
        cases herr
      · cases hv
    | none =>
      cases hu : mapGet (run L BookImpl.zero (addCalls adds)).contactsByUnique (uniqueKey c) with
      | none =>
        obtain ⟨bb, hbb⟩ := hm (BookImpl.contacts
          { topId := wrapInt ((run L BookImpl.zero (addCalls adds)).topId + 1)
            heap := (run L BookImpl.zero (addCalls adds)).heap ++
              [{ c with Id := wrapInt ((run L BookImpl.zero (addCalls adds)).topId + 1) }]
            contactsById := mapSet (run L BookImpl.zero (addCalls adds)).contactsById
              (wrapInt ((run L BookImpl.zero (addCalls adds)).topId + 1))
              (run L BookImpl.zero (addCalls adds)).heap.length
            contactsByUnique := mapSet (run L BookImpl.zero (addCalls adds)).contactsByUnique
              (uniqueKey c) (run L BookImpl.zero (addCalls adds)).heap.length })
        rw [AddContact_pass L _ c none hv hu, save_ok L _ none bb hbb] at herr
        cases herr
      | some p =>
        obtain ⟨s1, s2⟩ := kS _ (mapGet_mem _ _ _ hu)
        simp only at s1 s2
        have hlt := (kInv.1 _ (mapGet_mem _ _ _ s2)).1
        simp only at hlt
        have hd := kN _ (mem_heap_of_lt _ p hlt)
        obtain ⟨e1, e2⟩ := uniqueKey_inj _ c hd hc s1
        refine ⟨(deref (run L BookImpl.zero (addCalls adds)).heap p).Id,
          deref (run L BookImpl.zero (addCalls adds)).heap p, ?_, e1, e2⟩
        simp only [BookImpl.contactAt, s2, Option.map_some']

theorem uniqueKey_separates_witness :
    losslessLib.MarshalOk ∧ ':' ∉ annLee.FirstName.data ∧ ':' ∉ bobLee.FirstName.data ∧
      ':' ∉ annLee.FirstName.data ∧
      (∀ x ∈ [(annLee, (none : Option Err)), (bobLee, none)], ':' ∉ x.1.FirstName.data) ∧
      [(annLee, (none : Option Err)), (bobLee, none)].length + 1 < 2 ^ 63 ∧
      (uniqueKey annLee = uniqueKey bobLee ↔
        annLee.FirstName = bobLee.FirstName ∧ annLee.LastName = bobLee.LastName) ∧
      ∀ f l, (AddContact losslessLib
            (run losslessLib BookImpl.zero (addCalls [(annLee, none), (bobLee, none)]))
            annLee none).err = some (Err.ErrContactExists f l) →
        ∃ id d, (run losslessLib BookImpl.zero
            (addCalls [(annLee, none), (bobLee, none)])).contactAt id = some d ∧
          d.FirstName = annLee.FirstName ∧ d.LastName = annLee.LastName :=
  ⟨fun _ => ⟨_, rfl⟩, by decide, by decide, by decide, by decide, by decide,
    uniqueKey_separates losslessLib (fun _ => ⟨_, rfl⟩) annLee bobLee annLee
      [(annLee, none), (bobLee, none)] (by decide) (by decide) (by decide) (by decide)
      (by decide)⟩

end ContactBook
